import Mathlib

/-
Verification of the agent-orchestration core of the FocusFlow todo
application (Python backend).  The definitions below are a shallow
embedding of:

  * backend/mcp/tools.py          - the five task tools over the todo store
  * backend/mcp/registry.py       - TOOL_FUNCTIONS, the name -> impl registry
  * backend/agents/todo_agent.py  - run_todo_agent, the Gemini tool loop
  * backend/routes/chat.py        - the json serialization of tool_calls

Python dicts are embedded as association lists (their keys are unique and
ordered by insertion), JSON-compatible Python values as the inductive type
`JsonVal`, the SQL todos table as a `List Todo`, and the external Gemini
model as an oracle producing each round's response.  The unbounded
`while True:` loop of run_todo_agent is embedded with an explicit fuel
parameter: a `none` result means the loop is still running after `fuel`
follow-up rounds.  A Python exception escaping a tool implementation is
embedded as an `Except.error` carrying the exception message, matching the
`except Exception as e` handlers in the source.
-/

namespace TodoApp

/-- JSON-compatible values: embedding of the Python values that flow through
tool arguments, tool results and the serialized `tool_calls` transcript.
Objects are association lists in key-insertion order. -/
inductive JsonVal where
  | vStr : String → JsonVal
  | vInt : Int → JsonVal
  | vBool : Bool → JsonVal
  | vNull : JsonVal
  | vArr : List JsonVal → JsonVal
  | vObj : List (String × JsonVal) → JsonVal

/-- Row of the `todos` table (backend/models.py, class Todo). -/
structure Todo where
  id : Int
  user_id : String
  title : String
  description : Option String
  completed : Bool
deriving DecidableEq

/-- First value bound to a key in a Python dict embedded as an association
list (dict lookup; keys are unique in genuine dicts). -/
def lookupKey : List (String × JsonVal) → String → Option JsonVal
  | [], _ => none
  | (k, v) :: rest, key => if k = key then some v else lookupKey rest key

/-- Embedding of the Python dict merge `\x7b**args, key: v\x7d`: the value of
`key` is overwritten in place when the key is present, otherwise the pair is
appended, preserving insertion order of all other keys. -/
def setKey : List (String × JsonVal) → String → JsonVal → List (String × JsonVal)
  | [], key, v => [(key, v)]
  | (k, w) :: rest, key, v =>
    if k = key then (key, v) :: rest else (k, w) :: setKey rest key v

/-- The dict `\x7b"error": msg\x7d` returned by the error paths of the tools
and of the orchestrator's executor. -/
def errObj (msg : String) : JsonVal := .vObj [("error", .vStr msg)]

/-- Autoincremented primary key for an insert into the todos store. -/
def nextId (store : List Todo) : Int :=
  (store.map (fun t => t.id)).foldl max 0 + 1

/-- Embedding of tools.add_task.  `fault = some e` embeds the case in which
the underlying session raises an exception with message `e`, taken by the
`except` branch; `fault = none` is the normal path. -/
def add_task (fault : Option String) (store : List Todo) (user_id : String)
    (title : String) (description : Option String) : JsonVal × List Todo :=
  match fault with
  | some e => (errObj e, store)
  | none =>
    let newId := nextId store
    let todo : Todo := ⟨newId, user_id, title, description, false⟩
    (.vObj [("task_id", .vInt newId), ("status", .vStr "created"), ("title", .vStr title)],
     store ++ [todo])

/-- Status filter of tools.list_tasks: "pending" keeps incomplete tasks,
"completed" keeps completed ones, anything else keeps all. -/
def matchesStatus (status : String) (t : Todo) : Bool :=
  if status = "pending" then !t.completed
  else if status = "completed" then t.completed
  else true

/-- Embedding of tools.list_tasks.  Note that both branches return a JSON
list: a list of task dicts on the normal path, and the one-element list
`[\x7b"error": e\x7d]` on the exception path. -/
def list_tasks (fault : Option String) (store : List Todo) (user_id : String)
    (status : String) : JsonVal :=
  match fault with
  | some e => .vArr [errObj e]
  | none =>
    .vArr ((store.filter (fun t => t.user_id == user_id && matchesStatus status t)).map
      (fun t => .vObj [("id", .vInt t.id), ("title", .vStr t.title), ("completed", .vBool t.completed)]))

/-- Row selector of complete_task / delete_task / update_task:
`Todo.id == task_id, Todo.user_id == user_id`. -/
def ownedBy (user_id : String) (task_id : Int) (t : Todo) : Bool :=
  t.id == task_id && t.user_id == user_id

/-- Update of the first row matched by `p` (the session holds at most one:
`id` is the primary key). -/
def replaceFirst (p : Todo → Bool) (f : Todo → Todo) : List Todo → List Todo
  | [] => []
  | t :: rest => if p t then f t :: rest else t :: replaceFirst p f rest

/-- Deletion of the first row matched by `p`. -/
def removeFirst (p : Todo → Bool) : List Todo → List Todo
  | [] => []
  | t :: rest => if p t then rest else t :: removeFirst p rest

/-- Message of the not-found branch shared by complete/delete/update. -/
def notFoundMsg (task_id : Int) : String :=
  "Task with ID " ++ toString task_id ++ " not found for this user"

/-- Embedding of tools.complete_task. -/
def complete_task (fault : Option String) (store : List Todo) (user_id : String)
    (task_id : Int) : JsonVal × List Todo :=
  match fault with
  | some e => (errObj e, store)
  | none =>
    match store.find? (ownedBy user_id task_id) with
    | none => (errObj (notFoundMsg task_id), store)
    | some todo =>
      (.vObj [("task_id", .vInt todo.id), ("status", .vStr "completed"), ("title", .vStr todo.title)],
       replaceFirst (ownedBy user_id task_id)
         (fun t => ⟨t.id, t.user_id, t.title, t.description, true⟩) store)

/-- Embedding of tools.delete_task. -/
def delete_task (fault : Option String) (store : List Todo) (user_id : String)
    (task_id : Int) : JsonVal × List Todo :=
  match fault with
  | some e => (errObj e, store)
  | none =>
    match store.find? (ownedBy user_id task_id) with
    | none => (errObj (notFoundMsg task_id), store)
    | some todo =>
      (.vObj [("task_id", .vInt task_id), ("status", .vStr "deleted"), ("title", .vStr todo.title)],
       removeFirst (ownedBy user_id task_id) store)

/-- Field mutations of update_task: `todo.title = title` when a new title is
supplied, `todo.description = description` when a new description is. -/
def applyUpdate (title : Option String) (description : Option String) (t : Todo) : Todo :=
  let t1 : Todo :=
    match title with
    | some s => ⟨t.id, t.user_id, s, t.description, t.completed⟩
    | none => t
  match description with
  | some d => ⟨t1.id, t1.user_id, t1.title, some d, t1.completed⟩
  | none => t1

/-- Embedding of tools.update_task.  The returned title is read back from
the mutated row, so it is the updated one. -/
def update_task (fault : Option String) (store : List Todo) (user_id : String)
    (task_id : Int) (title : Option String) (description : Option String) :
    JsonVal × List Todo :=
  match fault with
  | some e => (errObj e, store)
  | none =>
    match store.find? (ownedBy user_id task_id) with
    | none => (errObj (notFoundMsg task_id), store)
    | some todo =>
      let updated := applyUpdate title description todo
      (.vObj [("task_id", .vInt updated.id), ("status", .vStr "updated"), ("title", .vStr updated.title)],
       replaceFirst (ownedBy user_id task_id) (applyUpdate title description) store)

/-- A function_call carried by one part of a model response:
`part.function_call.name` and `dict(part.function_call.args)`. -/
structure FuncCall where
  name : String
  args : List (String × JsonVal)

/-- One part of a Gemini response: an optional function call and a text
payload (proto text defaults to the empty string when absent). -/
structure RespPart where
  function_call : Option FuncCall
  text : String

/-- A model response is its list of parts (`response.parts`). -/
abbrev Response := List RespPart

/-- A `genai.protos.Part(function_response=...)` reply part: tool name and
the wrapped response dict. -/
structure FuncResponsePart where
  name : String
  response : JsonVal

/-- One entry of the tool-call audit list `tool_calls_info`. -/
structure AuditEntry where
  tool : String
  arguments : List (String × JsonVal)
  result : JsonVal

/-- The dict returned by run_todo_agent: response text plus audit trail. -/
structure AgentResult where
  response : String
  tool_calls : List AuditEntry

/-- A registered tool implementation as invoked by the orchestrator:
keyword arguments and current store in, `Except.error` when the Python call
raises, `Except.ok` with result value and updated store otherwise. -/
abbrev ToolImpl := List (String × JsonVal) → List Todo → Except String (JsonVal × List Todo)

/-- A tool registry: name to implementation, `none` when unregistered. -/
abbrev Registry := String → Option ToolImpl

/-- Embedding of the executor body of run_todo_agent (todo_agent.py lines
84-93): registry lookup, injection of the authenticated user_id into the
model-supplied arguments, invocation, and conversion of an exception or of
an unregistered name into an error dict. -/
def execCall (reg : Registry) (user_id : String) (fc : FuncCall) (store : List Todo) :
    JsonVal × List Todo :=
  match reg fc.name with
  | some impl =>
    match impl (setKey fc.args "user_id" (.vStr user_id)) store with
    | .ok (v, store') => (v, store')
    | .error e => (errObj e, store)
  | none => (errObj ("Tool " ++ fc.name ++ " is not registered."), store)

/-- Embedding of the `for part in response.parts` body: for each part
carrying a function_call, execute it, record an audit entry
`⟨tool, arguments, result⟩` and build the function_response reply part
`⟨name, \x7b"result": result\x7d⟩`; parts without a function_call are
skipped.  Returns the new audit entries, the reply parts (both in part
order) and the store after all executions. -/
def processParts (reg : Registry) (user_id : String) :
    List RespPart → List Todo → List AuditEntry × List FuncResponsePart × List Todo
  | [], store => ([], [], store)
  | p :: ps, store =>
    match p.function_call with
    | none => processParts reg user_id ps store
    | some fc =>
      let r := execCall reg user_id fc store
      let rest := processParts reg user_id ps r.2
      (⟨fc.name, fc.args, r.1⟩ :: rest.1,
       ⟨fc.name, .vObj [("result", r.1)]⟩ :: rest.2.1,
       rest.2.2)

/-- The `has_tool_call` flag of one loop iteration: some part of the
response carries a function_call. -/
def hasToolCall (r : Response) : Bool := r.any (fun p => p.function_call.isSome)

/-- Embedding of the final-text extraction: `final_text += part.text` for
every part whose text is truthy (non-empty). -/
def concatText (r : Response) : String :=
  r.foldl (fun acc p => if p.text ≠ "" then acc ++ p.text else acc) ""

/-- The fixed fallback acknowledgement of run_todo_agent line 129. -/
def fallbackText : String :=
  "I've updated your tasks. Is there anything else you'd like to do?"

/-- Final response text: the concatenated text parts, or the fallback when
no text was produced but at least one tool call was made. -/
def finalText (r : Response) (audits : List AuditEntry) : String :=
  let t := concatText r
  if t = "" && !audits.isEmpty then fallbackText else t

/-- Error text of the initial send (todo_agent.py line 64). -/
def transportMsg0 (e : String) : String :=
  "I'm sorry, I encountered an error communicating with the AI: " ++ e

/-- Error text of a follow-up send (todo_agent.py line 119). -/
def transportMsg1 (e : String) : String :=
  "I'm sorry, I encountered an error processing the task action: " ++ e

/-- The external model as an oracle: given the index of a follow-up send
and the function_response parts submitted in it, either the next response
or a transport error. -/
abbrev ModelOracle := Nat → List FuncResponsePart → Except String Response

/-- Embedding of the `while True:` loop of run_todo_agent with fuel
bounding the number of follow-up responses processed: `none` means the
loop is still running after exhausting the fuel.  Each iteration processes
every part of the current response, then either finishes the turn (no tool
call present), or submits all reply parts in one follow-up send, returning
the transport-error result on failure and looping on success. -/
def runLoop (reg : Registry) (user_id : String) (model : ModelOracle) :
    Nat → Nat → Response → List AuditEntry → List Todo →
    Option (AgentResult × List Todo)
  | 0, i, r, audits, store =>
    let pr := processParts reg user_id r store
    let audits' := audits ++ pr.1
    if hasToolCall r then
      match model i pr.2.1 with
      | .error e => some (⟨transportMsg1 e, audits'⟩, pr.2.2)
      | .ok _ => none
    else
      some (⟨finalText r audits', audits'⟩, pr.2.2)
  | fuel' + 1, i, r, audits, store =>
    let pr := processParts reg user_id r store
    let audits' := audits ++ pr.1
    if hasToolCall r then
      match model i pr.2.1 with
      | .error e => some (⟨transportMsg1 e, audits'⟩, pr.2.2)
      | .ok r' => runLoop reg user_id model fuel' (i + 1) r' audits' pr.2.2
    else
      some (⟨finalText r audits', audits'⟩, pr.2.2)

/-- Embedding of run_todo_agent: the initial send either fails (error
result with an empty audit trail) or produces the first response, on which
the tool loop runs. -/
def run_todo_agent (reg : Registry) (user_id : String) (model0 : Except String Response)
    (model : ModelOracle) (fuel : Nat) (store : List Todo) :
    Option (AgentResult × List Todo) :=
  match model0 with
  | .error e => some (⟨transportMsg0 e, []⟩, store)
  | .ok r => runLoop reg user_id model fuel 0 r [] store

/-- Keyword-argument binding check: Python raises TypeError when a call
carries an unexpected keyword argument. -/
def allowedKeys (args : List (String × JsonVal)) (allowed : List String) : Bool :=
  args.all (fun kv => allowed.contains kv.1)

/-- Required string parameter of a tool call; a missing binding raises
TypeError, a non-string one is modelled as an execution error. -/
def getStrArg (args : List (String × JsonVal)) (key : String) : Except String String :=
  match lookupKey args key with
  | some (.vStr s) => .ok s
  | some _ => .error ("TypeError: bad value for argument " ++ key)
  | none => .error ("TypeError: missing required argument " ++ key)

/-- Optional string parameter (defaults to None when absent or null). -/
def getOptStrArg (args : List (String × JsonVal)) (key : String) :
    Except String (Option String) :=
  match lookupKey args key with
  | none => .ok none
  | some (.vStr s) => .ok (some s)
  | some .vNull => .ok none
  | some _ => .error ("TypeError: bad value for argument " ++ key)

/-- Required integer parameter of a tool call. -/
def getIntArg (args : List (String × JsonVal)) (key : String) : Except String Int :=
  match lookupKey args key with
  | some (.vInt n) => .ok n
  | some _ => .error ("TypeError: bad value for argument " ++ key)
  | none => .error ("TypeError: missing required argument " ++ key)

/-- String parameter with a default value, for list_tasks' status. -/
def getStrArgD (args : List (String × JsonVal)) (key : String) (dflt : String) :
    Except String String :=
  match lookupKey args key with
  | none => .ok dflt
  | some (.vStr s) => .ok s
  | some _ => .error ("TypeError: bad value for argument " ++ key)

/-- add_task as registered: keyword binding then the tool body. -/
def dispatch_add_task : ToolImpl := fun args store =>
  if !allowedKeys args ["user_id", "title", "description"] then
    .error "TypeError: unexpected keyword argument"
  else do
    let uid ← getStrArg args "user_id"
    let title ← getStrArg args "title"
    let desc ← getOptStrArg args "description"
    .ok (add_task none store uid title desc)

/-- list_tasks as registered: keyword binding then the tool body (the store
is read, never changed). -/
def dispatch_list_tasks : ToolImpl := fun args store =>
  if !allowedKeys args ["user_id", "status"] then
    .error "TypeError: unexpected keyword argument"
  else do
    let uid ← getStrArg args "user_id"
    let status ← getStrArgD args "status" "all"
    .ok (list_tasks none store uid status, store)

/-- complete_task as registered. -/
def dispatch_complete_task : ToolImpl := fun args store =>
  if !allowedKeys args ["user_id", "task_id"] then
    .error "TypeError: unexpected keyword argument"
  else do
    let uid ← getStrArg args "user_id"
    let tid ← getIntArg args "task_id"
    .ok (complete_task none store uid tid)

/-- delete_task as registered. -/
def dispatch_delete_task : ToolImpl := fun args store =>
  if !allowedKeys args ["user_id", "task_id"] then
    .error "TypeError: unexpected keyword argument"
  else do
    let uid ← getStrArg args "user_id"
    let tid ← getIntArg args "task_id"
    .ok (delete_task none store uid tid)

/-- update_task as registered. -/
def dispatch_update_task : ToolImpl := fun args store =>
  if !allowedKeys args ["user_id", "task_id", "title", "description"] then
    .error "TypeError: unexpected keyword argument"
  else do
    let uid ← getStrArg args "user_id"
    let tid ← getIntArg args "task_id"
    let title ← getOptStrArg args "title"
    let desc ← getOptStrArg args "description"
    .ok (update_task none store uid tid title desc)

/-- Embedding of registry.TOOL_FUNCTIONS: the five registered tool names
mapped to their implementations. -/
def TOOL_FUNCTIONS : Registry := fun name =>
  if name = "add_task" then some dispatch_add_task
  else if name = "list_tasks" then some dispatch_list_tasks
  else if name = "complete_task" then some dispatch_complete_task
  else if name = "delete_task" then some dispatch_delete_task
  else if name = "update_task" then some dispatch_update_task
  else none

end TodoApp

namespace TodoApp

lemma lookupKey_setKey_self (args : List (String × JsonVal)) (key : String) (v : JsonVal) :
    lookupKey (setKey args key v) key = some v := by
  induction args with
  | nil => simp [setKey, lookupKey]
  | cons kv rest ih =>
    obtain ⟨k, w⟩ := kv
    by_cases h : k = key
    · simp [setKey, h, lookupKey]
    · simp [setKey, h, lookupKey, ih]

lemma lookupKey_setKey_other (args : List (String × JsonVal)) (key k' : String) (v : JsonVal)
    (h : k' ≠ key) : lookupKey (setKey args key v) k' = lookupKey args k' := by
  induction args with
  | nil => simp [setKey, lookupKey, Ne.symm h]
  | cons kv rest ih =>
    obtain ⟨k, w⟩ := kv
    by_cases hk : k = key
    · subst hk
      simp [setKey, lookupKey, Ne.symm h]
    · simp [setKey, hk, lookupKey, ih]

end TodoApp

namespace TodoApp

/-- C2: for every tool-invocation request, the executor merges the
authenticated user_id into the model-supplied arguments before invoking the
implementation, overriding any model-supplied value of the key "user_id"
and leaving every other key unchanged; whenever the requested name resolves
in the registry, the implementation is invoked with exactly this merged
argument set, in which "user_id" is the caller's authenticated identity. -/
theorem C2_user_id_injection (uid : String) (args : List (String × JsonVal)) :
    lookupKey (setKey args "user_id" (.vStr uid)) "user_id" = some (.vStr uid)
    ∧ (∀ k, k ≠ "user_id" →
        lookupKey (setKey args "user_id" (.vStr uid)) k = lookupKey args k)
    ∧ (∀ (reg : Registry) (name : String) (impl : ToolImpl) (store : List Todo),
        reg name = some impl →
        execCall reg uid ⟨name, args⟩ store =
          (match impl (setKey args "user_id" (.vStr uid)) store with
           | .ok (v, store') => (v, store')
           | .error e => (errObj e, store))) := by
  refine ⟨lookupKey_setKey_self args "user_id" (.vStr uid), ?_, ?_⟩
  · intro k hk
    exact lookupKey_setKey_other args "user_id" k (.vStr uid) hk
  · intro reg name impl store hreg
    simp [execCall, hreg]

/-- C2 witness: a model-supplied argument user_id = "attacker" is overridden
with the authenticated caller "u1" before list_tasks is invoked. -/
theorem C2_user_id_injection_witness :
    lookupKey (setKey [("user_id", JsonVal.vStr "attacker")] "user_id" (.vStr "u1")) "user_id"
      = some (.vStr "u1")
    ∧ execCall TOOL_FUNCTIONS "u1" ⟨"list_tasks", [("user_id", JsonVal.vStr "attacker")]⟩ [] =
        (match dispatch_list_tasks
            (setKey [("user_id", JsonVal.vStr "attacker")] "user_id" (.vStr "u1")) [] with
         | .ok (v, store') => (v, store')
         | .error e => (errObj e, [])) :=
  ⟨(C2_user_id_injection "u1" [("user_id", JsonVal.vStr "attacker")]).1,
   (C2_user_id_injection "u1" [("user_id", JsonVal.vStr "attacker")]).2.2
     TOOL_FUNCTIONS "list_tasks" dispatch_list_tasks [] rfl⟩

end TodoApp

namespace TodoApp

lemma find?_ownedBy_none {uid : String} {tid : Int} {store : List Todo}
    (h : ∀ t ∈ store, ownedBy uid tid t = false) :
    store.find? (ownedBy uid tid) = none := by
  rw [List.find?_eq_none]
  intro t ht
  simp [h t ht]

/-- C10: when no task with the given id is owned by the given user (in
particular when the task belongs to a different user), each of
complete_task, delete_task and update_task returns the error dict
"Task with ID ... not found for this user" and returns the store unchanged,
so a task owned by another user is never completed, deleted or modified. -/
theorem C10_not_found_leaves_store (uid : String) (tid : Int) (store : List Todo)
    (h : ∀ t ∈ store, ownedBy uid tid t = false) :
    complete_task none store uid tid = (errObj (notFoundMsg tid), store)
    ∧ delete_task none store uid tid = (errObj (notFoundMsg tid), store)
    ∧ (∀ title description,
        update_task none store uid tid title description = (errObj (notFoundMsg tid), store))
    ∧ notFoundMsg tid = "Task with ID " ++ toString tid ++ " not found for this user" := by
  have hf := find?_ownedBy_none h
  refine ⟨?_, ?_, ?_, rfl⟩
  · simp [complete_task, hf]
  · simp [delete_task, hf]
  · intro title description
    simp [update_task, hf]

/-- C10 witness: user "u1" operating on task id 1, which is owned by the
different user "other": all three operations report not-found and leave the
store unchanged. -/
theorem C10_not_found_leaves_store_witness :
    complete_task none [⟨1, "other", "t", none, false⟩] "u1" 1
      = (errObj (notFoundMsg 1), [⟨1, "other", "t", none, false⟩])
    ∧ delete_task none [⟨1, "other", "t", none, false⟩] "u1" 1
      = (errObj (notFoundMsg 1), [⟨1, "other", "t", none, false⟩])
    ∧ (∀ title description,
        update_task none [⟨1, "other", "t", none, false⟩] "u1" 1 title description
          = (errObj (notFoundMsg 1), [⟨1, "other", "t", none, false⟩]))
    ∧ notFoundMsg 1 = "Task with ID " ++ toString (1 : Int) ++ " not found for this user" :=
  C10_not_found_leaves_store "u1" 1 [⟨1, "other", "t", none, false⟩] (by decide)

/-- JSON value shape tests used by the pydantic-validation claim. -/
def isObj : JsonVal → Bool
  | .vObj _ => true
  | _ => false

def isArr : JsonVal → Bool
  | .vArr _ => true
  | _ => false

/-- Embedding of the validation performed by models.ToolCallInfo when
chat.py constructs `ToolCallInfo(**tc)` from an audit entry: the `result`
field is typed `dict`, so validation succeeds exactly when the entry's
result is a JSON object (a list is rejected). -/
def toolCallInfoValid (e : AuditEntry) : Bool := isObj e.result

/-- C9: list_tasks always returns a JSON list (a list of task dicts on
success, the one-element list [error dict] on failure), never a dict, so an
audit entry whose result comes from list_tasks fails ToolCallInfo
validation; the other four registered tools always return a dict. -/
theorem C9_list_tasks_returns_list :
    (∀ fault store uid status,
        isArr (list_tasks fault store uid status) = true
        ∧ isObj (list_tasks fault store uid status) = false)
    ∧ (∀ e store uid status, list_tasks (some e) store uid status = .vArr [errObj e])
    ∧ (∀ store uid status, ∃ xs, list_tasks none store uid status = .vArr xs
        ∧ ∀ v ∈ xs, isObj v = true)
    ∧ (∀ tool args fault store uid status,
        toolCallInfoValid ⟨tool, args, list_tasks fault store uid status⟩ = false)
    ∧ (∀ fault store uid title description,
        isObj (add_task fault store uid title description).1 = true)
    ∧ (∀ fault store uid tid, isObj (complete_task fault store uid tid).1 = true)
    ∧ (∀ fault store uid tid, isObj (delete_task fault store uid tid).1 = true)
    ∧ (∀ fault store uid tid title description,
        isObj (update_task fault store uid tid title description).1 = true) := by
  have hlist : ∀ fault store uid status, ∃ xs, list_tasks fault store uid status = .vArr xs := by
    intro fault store uid status
    cases fault <;> simp [list_tasks]
  refine ⟨?_, ?_, ?_, ?_, ?_, ?_, ?_, ?_⟩
  · intro fault store uid status
    obtain ⟨xs, hx⟩ := hlist fault store uid status
    simp [hx, isArr, isObj]
  · intro e store uid status
    simp [list_tasks]
  · intro store uid status
    refine ⟨_, rfl, ?_⟩
    intro v hv
    simp [list_tasks] at hv
    obtain ⟨t, _, ht⟩ := hv
    simp [← ht, isObj]
  · intro tool args fault store uid status
    obtain ⟨xs, hx⟩ := hlist fault store uid status
    simp [toolCallInfoValid, hx, isObj]
  · intro fault store uid title description
    cases fault <;> simp [add_task, errObj, isObj]
  · intro fault store uid tid
    cases fault with
    | some e => simp [complete_task, errObj, isObj]
    | none =>
      cases hf : store.find? (ownedBy uid tid) <;>
        simp [complete_task, hf, errObj, isObj]
  · intro fault store uid tid
    cases fault with
    | some e => simp [delete_task, errObj, isObj]
    | none =>
      cases hf : store.find? (ownedBy uid tid) <;>
        simp [delete_task, hf, errObj, isObj]
  · intro fault store uid tid title description
    cases fault with
    | some e => simp [update_task, errObj, isObj]
    | none =>
      cases hf : store.find? (ownedBy uid tid) <;>
        simp [update_task, hf, errObj, isObj]

end TodoApp

namespace TodoApp

/-- C9 witness: on a concrete store the list_tasks result is a JSON list and
fails ToolCallInfo validation, while complete_task returns a dict. -/
theorem C9_list_tasks_returns_list_witness :
    isArr (list_tasks none [⟨1, "u1", "a", none, false⟩] "u1" "all") = true
    ∧ toolCallInfoValid ⟨"list_tasks", [],
        list_tasks none [⟨1, "u1", "a", none, false⟩] "u1" "all"⟩ = false
    ∧ isObj (complete_task none [] "u1" 3).1 = true :=
  ⟨(C9_list_tasks_returns_list.1 none [⟨1, "u1", "a", none, false⟩] "u1" "all").1,
   C9_list_tasks_returns_list.2.2.2.1 "list_tasks" [] none [⟨1, "u1", "a", none, false⟩] "u1" "all",
   C9_list_tasks_returns_list.2.2.2.2.2.1 none [] "u1" 3⟩

end TodoApp

namespace TodoApp

/-- The tool-invocation requests carried by a model response, in part
order. -/
def toolRequests (r : Response) : List FuncCall :=
  r.filterMap (fun p => p.function_call)

lemma processParts_tools_args (reg : Registry) (uid : String) :
    ∀ (ps : List RespPart) (store : List Todo),
      ((processParts reg uid ps store).1).map (fun a => (a.tool, a.arguments))
        = (toolRequests ps).map (fun fc => (fc.name, fc.args)) := by
  intro ps
  induction ps with
  | nil => intro store; simp [processParts, toolRequests]
  | cons p rest ih =>
    intro store
    cases hp : p.function_call with
    | none => simp [processParts, hp, toolRequests, List.filterMap_cons, ih]
    | some fc => simp [processParts, hp, toolRequests, List.filterMap_cons, ih]

lemma processParts_reply_names (reg : Registry) (uid : String) :
    ∀ (ps : List RespPart) (store : List Todo),
      ((processParts reg uid ps store).2.1).map (fun f => f.name)
        = ((processParts reg uid ps store).1).map (fun a => a.tool) := by
  intro ps
  induction ps with
  | nil => intro store; simp [processParts]
  | cons p rest ih =>
    intro store
    cases hp : p.function_call with
    | none => simp [processParts, hp, ih]
    | some fc => simp [processParts, hp, ih]

lemma processParts_reply_results (reg : Registry) (uid : String) :
    ∀ (ps : List RespPart) (store : List Todo),
      ((processParts reg uid ps store).2.1).map (fun f => f.response)
        = ((processParts reg uid ps store).1).map (fun a => JsonVal.vObj [("result", a.result)]) := by
  intro ps
  induction ps with
  | nil => intro store; simp [processParts]
  | cons p rest ih =>
    intro store
    cases hp : p.function_call with
    | none => simp [processParts, hp, ih]
    | some fc => simp [processParts, hp, ih]

lemma runLoop_step (reg : Registry) (uid : String) (model : ModelOracle)
    (fuel i : Nat) (r : Response) (audits : List AuditEntry) (store : List Todo)
    (h : hasToolCall r = true) :
    runLoop reg uid model (fuel + 1) i r audits store =
      (match model i (processParts reg uid r store).2.1 with
       | .error e => some (⟨transportMsg1 e, audits ++ (processParts reg uid r store).1⟩,
           (processParts reg uid r store).2.2)
       | .ok r' => runLoop reg uid model fuel (i + 1) r' (audits ++ (processParts reg uid r store).1)
           (processParts reg uid r store).2.2) := by
  cases hm : model i (processParts reg uid r store).2.1 with
  | error e =>
    rw [runLoop]
    simp [h, hm]
  | ok r' =>
    rw [runLoop]
    simp [h, hm]

lemma runLoop_final (reg : Registry) (uid : String) (model : ModelOracle)
    (fuel i : Nat) (r : Response) (audits : List AuditEntry) (store : List Todo)
    (h : hasToolCall r = false) :
    runLoop reg uid model fuel i r audits store
      = some (⟨finalText r (audits ++ (processParts reg uid r store).1),
          audits ++ (processParts reg uid r store).1⟩, (processParts reg uid r store).2.2) := by
  cases fuel with
  | zero => rw [runLoop]; simp [h]
  | succ fuel' => rw [runLoop]; simp [h]

lemma processParts_no_toolcall (reg : Registry) (uid : String) :
    ∀ (ps : List RespPart) (store : List Todo), hasToolCall ps = false →
      processParts reg uid ps store = ([], [], store) := by
  intro ps
  induction ps with
  | nil => intro store _; rfl
  | cons p rest ih =>
    intro store h
    simp [hasToolCall] at h
    obtain ⟨h1, h2⟩ := h
    have hrest : hasToolCall rest = false := by
      simp [hasToolCall, List.any_eq_false]
      intro x hx
      simp [h2 x hx]
    simp [processParts, h1, ih store hrest]

end TodoApp

namespace TodoApp

lemma processParts_append (reg : Registry) (uid : String) :
    ∀ (xs ys : List RespPart) (store : List Todo),
      processParts reg uid (xs ++ ys) store
        = ((processParts reg uid xs store).1
             ++ (processParts reg uid ys (processParts reg uid xs store).2.2).1,
           (processParts reg uid xs store).2.1
             ++ (processParts reg uid ys (processParts reg uid xs store).2.2).2.1,
           (processParts reg uid ys (processParts reg uid xs store).2.2).2.2) := by
  intro xs
  induction xs with
  | nil => intro ys store; simp [processParts]
  | cons p rest ih =>
    intro ys store
    cases hp : p.function_call with
    | none => simp [processParts, hp, ih]
    | some fc => simp [processParts, hp, ih]

lemma runLoop_transport_error (reg : Registry) (uid : String) (model : ModelOracle)
    (fuel i : Nat) (r : Response) (audits : List AuditEntry) (store : List Todo) (e : String)
    (h : hasToolCall r = true)
    (hm : model i (processParts reg uid r store).2.1 = .error e) :
    runLoop reg uid model fuel i r audits store
      = some (⟨transportMsg1 e, audits ++ (processParts reg uid r store).1⟩,
          (processParts reg uid r store).2.2) := by
  cases fuel with
  | zero => rw [runLoop]; simp [h, hm]
  | succ fuel' => rw [runLoop]; simp [h, hm]

/-- Plain concatenation of the text parts of a response, in part order. -/
def textConcat : Response → String
  | [] => ""
  | p :: ps => p.text ++ textConcat ps

lemma concatText_aux : ∀ (r : Response) (acc : String),
    List.foldl (fun acc p => if p.text = "" then acc else acc ++ p.text) acc r
      = acc ++ textConcat r := by
  intro r
  induction r with
  | nil => intro acc; simp [textConcat]
  | cons p rest ih =>
    intro acc
    simp only [List.foldl_cons]
    by_cases hp : p.text = ""
    · rw [if_pos hp, ih]
      simp [textConcat, hp]
    · rw [if_neg hp, ih]
      simp [textConcat, String.append_assoc]

lemma concatText_eq_textConcat (r : Response) : concatText r = textConcat r := by
  have h := concatText_aux r ""
  simp only [concatText, ne_eq, ite_not]
  simpa using h

/-- The fixed response the misbehaving model of the C1 counterexample keeps
returning: a single part requesting the list_tasks tool. -/
def alwaysToolResp : Response := [⟨some ⟨"list_tasks", []⟩, ""⟩]

/-- A model that requests a tool on every round and never errors. -/
def alwaysToolModel : ModelOracle := fun _ _ => .ok alwaysToolResp

/-- The orchestration loop never terminates against `alwaysToolModel`: for
every fuel bound the run is still looping. -/
def loopsForeverOnAlwaysTool : Prop :=
  ∀ (fuel : Nat) (store : List Todo),
    run_todo_agent TOOL_FUNCTIONS "u1" (.ok alwaysToolResp) alwaysToolModel fuel store = none

lemma hasToolCall_alwaysToolResp : hasToolCall alwaysToolResp = true := rfl

lemma alwaysTool_runLoop_none :
    ∀ (fuel i : Nat) (audits : List AuditEntry) (store : List Todo),
      runLoop TOOL_FUNCTIONS "u1" alwaysToolModel fuel i alwaysToolResp audits store = none := by
  intro fuel
  induction fuel with
  | zero =>
    intro i audits store
    rw [runLoop]
    simp [hasToolCall, alwaysToolResp, alwaysToolModel]
  | succ fuel' ih =>
    intro i audits store
    rw [runLoop]
    simp only [hasToolCall_alwaysToolResp, if_true, alwaysToolModel]
    exact ih (i + 1) _ _

/-- A model answer that is present and still requests a tool. -/
def isOkTool : Except String Response → Bool
  | .ok r => hasToolCall r
  | .error _ => false

/-- A model answer that is present and requests no tool. -/
def isOkNoTool : Except String Response → Bool
  | .ok r => !hasToolCall r
  | .error _ => false

end TodoApp

namespace TodoApp

/-- C3: within one model turn with at least one tool-invocation request,
every request is executed: the audit list gains one entry per request, in
the model's request order, with the entry's tool and arguments taken from
the request; the reply parts correspond one-to-one to the audit entries by
tool name and wrap each result; and the loop submits all of them back to
the model in a single follow-up call before any further round-trip. -/
theorem C3_all_requests_executed_single_followup (reg : Registry) (uid : String)
    (model : ModelOracle) (fuel i : Nat) (r : Response) (audits : List AuditEntry)
    (store : List Todo) (h : hasToolCall r = true) :
    ((processParts reg uid r store).1).map (fun a => (a.tool, a.arguments))
      = (toolRequests r).map (fun fc => (fc.name, fc.args))
    ∧ ((processParts reg uid r store).2.1).map (fun f => f.name)
      = ((processParts reg uid r store).1).map (fun a => a.tool)
    ∧ ((processParts reg uid r store).2.1).map (fun f => f.response)
      = ((processParts reg uid r store).1).map (fun a => JsonVal.vObj [("result", a.result)])
    ∧ runLoop reg uid model (fuel + 1) i r audits store =
        (match model i (processParts reg uid r store).2.1 with
         | .error e => some (⟨transportMsg1 e, audits ++ (processParts reg uid r store).1⟩,
             (processParts reg uid r store).2.2)
         | .ok r' => runLoop reg uid model fuel (i + 1) r'
             (audits ++ (processParts reg uid r store).1) (processParts reg uid r store).2.2) :=
  ⟨processParts_tools_args reg uid r store, processParts_reply_names reg uid r store,
   processParts_reply_results reg uid r store, runLoop_step reg uid model fuel i r audits store h⟩

/-- Model response carrying two tool requests, used as concrete input. -/
def demoTwoToolResp : Response := [⟨some ⟨"nope", []⟩, ""⟩, ⟨some ⟨"nope2", []⟩, ""⟩]

/-- Model that fails every follow-up send, used as concrete input. -/
def demoErrModel : ModelOracle := fun _ _ => .error "boom"

/-- C3 witness: a turn with two tool requests yields two audit entries and
one follow-up submission of both reply parts. -/
theorem C3_all_requests_executed_single_followup_witness :
    ((processParts TOOL_FUNCTIONS "u1" demoTwoToolResp []).1).map (fun a => (a.tool, a.arguments))
      = (toolRequests demoTwoToolResp).map (fun fc => (fc.name, fc.args))
    ∧ ((processParts TOOL_FUNCTIONS "u1" demoTwoToolResp []).2.1).map (fun f => f.name)
      = ((processParts TOOL_FUNCTIONS "u1" demoTwoToolResp []).1).map (fun a => a.tool)
    ∧ ((processParts TOOL_FUNCTIONS "u1" demoTwoToolResp []).2.1).map (fun f => f.response)
      = ((processParts TOOL_FUNCTIONS "u1" demoTwoToolResp []).1).map
          (fun a => JsonVal.vObj [("result", a.result)])
    ∧ runLoop TOOL_FUNCTIONS "u1" demoErrModel (0 + 1) 0 demoTwoToolResp [] [] =
        (match demoErrModel 0 (processParts TOOL_FUNCTIONS "u1" demoTwoToolResp []).2.1 with
         | .error e => some (⟨transportMsg1 e, [] ++ (processParts TOOL_FUNCTIONS "u1" demoTwoToolResp []).1⟩,
             (processParts TOOL_FUNCTIONS "u1" demoTwoToolResp []).2.2)
         | .ok r' => runLoop TOOL_FUNCTIONS "u1" demoErrModel 0 (0 + 1) r'
             ([] ++ (processParts TOOL_FUNCTIONS "u1" demoTwoToolResp []).1)
             (processParts TOOL_FUNCTIONS "u1" demoTwoToolResp []).2.2) :=
  C3_all_requests_executed_single_followup TOOL_FUNCTIONS "u1" demoErrModel 0 0
    demoTwoToolResp [] [] rfl

/-- C4: when a registered tool implementation raises during execution (its
call returns an error), the executor converts the exception into the error
dict carrying the message, the store is left as it was before that call,
and every other tool invoked in the same round - before or after the
failing one - still executes and completes normally; the loop itself does
not abort: it proceeds to the single follow-up send of all reply parts. -/
theorem C4_tool_exception_isolated (reg : Registry) (uid : String) (ps1 ps2 : List RespPart)
    (txt : String) (fc : FuncCall) (impl : ToolImpl) (store : List Todo) (e : String)
    (hreg : reg fc.name = some impl)
    (himpl : impl (setKey fc.args "user_id" (.vStr uid)) (processParts reg uid ps1 store).2.2
      = .error e) :
    processParts reg uid (ps1 ++ ⟨some fc, txt⟩ :: ps2) store
      = ((processParts reg uid ps1 store).1 ++ ⟨fc.name, fc.args, errObj e⟩ ::
           (processParts reg uid ps2 (processParts reg uid ps1 store).2.2).1,
         (processParts reg uid ps1 store).2.1 ++ ⟨fc.name, .vObj [("result", errObj e)]⟩ ::
           (processParts reg uid ps2 (processParts reg uid ps1 store).2.2).2.1,
         (processParts reg uid ps2 (processParts reg uid ps1 store).2.2).2.2)
    ∧ ∀ (model : ModelOracle) (fuel i : Nat) (audits : List AuditEntry),
        runLoop reg uid model (fuel + 1) i (ps1 ++ ⟨some fc, txt⟩ :: ps2) audits store =
          (match model i (processParts reg uid (ps1 ++ ⟨some fc, txt⟩ :: ps2) store).2.1 with
           | .error e' => some (⟨transportMsg1 e',
               audits ++ (processParts reg uid (ps1 ++ ⟨some fc, txt⟩ :: ps2) store).1⟩,
               (processParts reg uid (ps1 ++ ⟨some fc, txt⟩ :: ps2) store).2.2)
           | .ok r' => runLoop reg uid model fuel (i + 1) r'
               (audits ++ (processParts reg uid (ps1 ++ ⟨some fc, txt⟩ :: ps2) store).1)
               (processParts reg uid (ps1 ++ ⟨some fc, txt⟩ :: ps2) store).2.2) := by
  constructor
  · rw [processParts_append]
    simp [processParts, execCall, hreg, himpl]
  · intro model fuel i audits
    apply runLoop_step
    simp [hasToolCall]

/-- C4 witness: in a round with an unregistered call followed by a
complete_task call whose execution raises a TypeError, the failing call
yields an error-dict audit entry and the other call still completes. -/
theorem C4_tool_exception_isolated_witness :
    processParts TOOL_FUNCTIONS "u1"
        ([⟨some ⟨"nope", []⟩, ""⟩] ++ ⟨some ⟨"complete_task", [("task_id", JsonVal.vStr "x")]⟩, ""⟩ :: []) []
      = ((processParts TOOL_FUNCTIONS "u1" [⟨some ⟨"nope", []⟩, ""⟩] []).1
           ++ ⟨"complete_task", [("task_id", JsonVal.vStr "x")],
                errObj "TypeError: bad value for argument task_id"⟩ ::
             (processParts TOOL_FUNCTIONS "u1" []
               (processParts TOOL_FUNCTIONS "u1" [⟨some ⟨"nope", []⟩, ""⟩] []).2.2).1,
         (processParts TOOL_FUNCTIONS "u1" [⟨some ⟨"nope", []⟩, ""⟩] []).2.1
           ++ ⟨"complete_task", .vObj [("result", errObj "TypeError: bad value for argument task_id")]⟩ ::
             (processParts TOOL_FUNCTIONS "u1" []
               (processParts TOOL_FUNCTIONS "u1" [⟨some ⟨"nope", []⟩, ""⟩] []).2.2).2.1,
         (processParts TOOL_FUNCTIONS "u1" []
           (processParts TOOL_FUNCTIONS "u1" [⟨some ⟨"nope", []⟩, ""⟩] []).2.2).2.2) :=
  (C4_tool_exception_isolated TOOL_FUNCTIONS "u1" [⟨some ⟨"nope", []⟩, ""⟩] [] ""
    ⟨"complete_task", [("task_id", JsonVal.vStr "x")]⟩ dispatch_complete_task [] 
    "TypeError: bad value for argument task_id" rfl rfl).1

end TodoApp

namespace TodoApp

/-- C5: a tool-invocation request whose name is not in the registry is
answered with the failure dict "Tool \x7bname\x7d is not registered.", the
failure is recorded as that request's audit entry, and the loop does not
abort the turn: it still submits the reply parts and continues to the next
round. -/
theorem C5_unregistered_tool_failure (uid name : String) (args : List (String × JsonVal))
    (txt : String) (ps : List RespPart) (store : List Todo)
    (h : TOOL_FUNCTIONS name = none) :
    execCall TOOL_FUNCTIONS uid ⟨name, args⟩ store
      = (errObj ("Tool " ++ name ++ " is not registered."), store)
    ∧ processParts TOOL_FUNCTIONS uid (⟨some ⟨name, args⟩, txt⟩ :: ps) store
      = (⟨name, args, errObj ("Tool " ++ name ++ " is not registered.")⟩ ::
           (processParts TOOL_FUNCTIONS uid ps store).1,
         ⟨name, .vObj [("result", errObj ("Tool " ++ name ++ " is not registered."))]⟩ ::
           (processParts TOOL_FUNCTIONS uid ps store).2.1,
         (processParts TOOL_FUNCTIONS uid ps store).2.2)
    ∧ ∀ (model : ModelOracle) (fuel i : Nat) (audits : List AuditEntry),
        runLoop TOOL_FUNCTIONS uid model (fuel + 1) i (⟨some ⟨name, args⟩, txt⟩ :: ps) audits store =
          (match model i (processParts TOOL_FUNCTIONS uid (⟨some ⟨name, args⟩, txt⟩ :: ps) store).2.1 with
           | .error e => some (⟨transportMsg1 e,
               audits ++ (processParts TOOL_FUNCTIONS uid (⟨some ⟨name, args⟩, txt⟩ :: ps) store).1⟩,
               (processParts TOOL_FUNCTIONS uid (⟨some ⟨name, args⟩, txt⟩ :: ps) store).2.2)
           | .ok r' => runLoop TOOL_FUNCTIONS uid model fuel (i + 1) r'
               (audits ++ (processParts TOOL_FUNCTIONS uid (⟨some ⟨name, args⟩, txt⟩ :: ps) store).1)
               (processParts TOOL_FUNCTIONS uid (⟨some ⟨name, args⟩, txt⟩ :: ps) store).2.2) := by
  refine ⟨?_, ?_, ?_⟩
  · simp [execCall, h]
  · simp [processParts, execCall, h]
  · intro model fuel i audits
    apply runLoop_step
    simp [hasToolCall]

/-- C5 witness: the unregistered name "foo". -/
theorem C5_unregistered_tool_failure_witness :
    execCall TOOL_FUNCTIONS "u1" ⟨"foo", []⟩ []
      = (errObj ("Tool " ++ "foo" ++ " is not registered."), [])
    ∧ processParts TOOL_FUNCTIONS "u1" [⟨some ⟨"foo", []⟩, ""⟩] []
      = ([⟨"foo", [], errObj ("Tool " ++ "foo" ++ " is not registered.")⟩],
         [⟨"foo", .vObj [("result", errObj ("Tool " ++ "foo" ++ " is not registered."))]⟩],
         []) :=
  ⟨(C5_unregistered_tool_failure "u1" "foo" [] "" [] [] rfl).1,
   (C5_unregistered_tool_failure "u1" "foo" [] "" [] [] rfl).2.1⟩

/-- C6: a transport error talking to the model aborts the turn without
retrying: an error on the initial send yields the error-flavored result
with an empty audit trail, and an error on any follow-up send yields the
error-flavored result carrying exactly the tool calls completed so far
(the prior rounds' entries plus all entries of the current round, which
were executed before the failing send), at any remaining fuel. -/
theorem C6_transport_error_aborts (reg : Registry) (uid : String) (model : ModelOracle)
    (fuel : Nat) (store : List Todo) :
    (∀ e, run_todo_agent reg uid (.error e) model fuel store
        = some (⟨transportMsg0 e, []⟩, store))
    ∧ (∀ (i : Nat) (r : Response) (audits : List AuditEntry) (store' : List Todo) (e : String),
        hasToolCall r = true →
        model i (processParts reg uid r store').2.1 = .error e →
        runLoop reg uid model fuel i r audits store'
          = some (⟨transportMsg1 e, audits ++ (processParts reg uid r store').1⟩,
              (processParts reg uid r store').2.2)) :=
  ⟨fun _ => rfl,
   fun i r audits store' e h hm =>
     runLoop_transport_error reg uid model fuel i r audits store' e h hm⟩

/-- C6 witness: a failing initial send and a failing follow-up send, each
carrying exactly the already-completed tool calls. -/
theorem C6_transport_error_aborts_witness :
    run_todo_agent TOOL_FUNCTIONS "u1" (.error "down") demoErrModel 3 []
      = some (⟨transportMsg0 "down", []⟩, [])
    ∧ runLoop TOOL_FUNCTIONS "u1" demoErrModel 3 0 demoTwoToolResp [] []
      = some (⟨transportMsg1 "boom", [] ++ (processParts TOOL_FUNCTIONS "u1" demoTwoToolResp []).1⟩,
          (processParts TOOL_FUNCTIONS "u1" demoTwoToolResp []).2.2) :=
  ⟨(C6_transport_error_aborts TOOL_FUNCTIONS "u1" demoErrModel 3 []).1 "down",
   (C6_transport_error_aborts TOOL_FUNCTIONS "u1" demoErrModel 3 []).2 0 demoTwoToolResp [] []
     "boom" rfl rfl⟩

/-- C7: when the current model response contains no tool-invocation
request, the loop finishes the turn: the response text is the
concatenation of all text parts of that response, except that the fixed
fallback acknowledgement is substituted when that concatenation is empty
and at least one tool call occurred during the turn; the audit trail and
store are returned unchanged. -/
theorem C7_final_text (reg : Registry) (uid : String) (model : ModelOracle)
    (fuel i : Nat) (r : Response) (audits : List AuditEntry) (store : List Todo)
    (h : hasToolCall r = false) :
    runLoop reg uid model fuel i r audits store
      = some (⟨finalText r audits, audits⟩, store)
    ∧ concatText r = textConcat r
    ∧ (textConcat r = "" → audits ≠ [] → finalText r audits = fallbackText)
    ∧ (textConcat r ≠ "" → finalText r audits = textConcat r)
    ∧ (audits = [] → finalText r audits = textConcat r) := by
  have hpp := processParts_no_toolcall reg uid r store h
  refine ⟨?_, concatText_eq_textConcat r, ?_, ?_, ?_⟩
  · rw [runLoop_final reg uid model fuel i r audits store h, hpp]
    simp
  · intro h1 h2
    simp [finalText, concatText_eq_textConcat, h1, List.isEmpty_iff, h2]
  · intro h1
    simp [finalText, concatText_eq_textConcat, h1]
  · intro h1
    simp [finalText, h1, concatText_eq_textConcat]

/-- C7 witness: a text-only final response returns its text; an empty
final response after one tool call returns the fallback acknowledgement. -/
theorem C7_final_text_witness :
    runLoop TOOL_FUNCTIONS "u1" demoErrModel 2 1 [⟨none, "All done!"⟩]
        [⟨"add_task", [], errObj "x"⟩] []
      = some (⟨finalText [⟨none, "All done!"⟩] [⟨"add_task", [], errObj "x"⟩],
          [⟨"add_task", [], errObj "x"⟩]⟩, [])
    ∧ (textConcat ([⟨none, ""⟩] : Response) = "" →
        ([⟨"add_task", [], errObj "x"⟩] : List AuditEntry) ≠ [] →
        finalText [⟨none, ""⟩] [⟨"add_task", [], errObj "x"⟩] = fallbackText) :=
  ⟨(C7_final_text TOOL_FUNCTIONS "u1" demoErrModel 2 1 [⟨none, "All done!"⟩]
      [⟨"add_task", [], errObj "x"⟩] [] rfl).1,
   (C7_final_text TOOL_FUNCTIONS "u1" demoErrModel 2 1 [⟨none, ""⟩]
      [⟨"add_task", [], errObj "x"⟩] [] rfl).2.2.1⟩

end TodoApp

namespace TodoApp

/-- C1 counterexample: the claim that the loop terminates for every
sequence of model responses is false of the code.  Against a model that
never stops requesting tools (and never errors), run_todo_agent is still
looping after every fuel bound: there is no configured maximum number of
tool-exchange rounds and no budget-exceeded final response. -/
theorem C1_counterexample_loop_forever : loopsForeverOnAlwaysTool := by
  intro fuel store
  exact alwaysTool_runLoop_none fuel 0 [] store

/-- C1 amended: the orchestration loop imposes no round cap.  It
terminates exactly when a send fails or when the model returns a response
with no tool-invocation requests: if every follow-up answer before round n
requests a tool and the answer at round n requests none, the loop
completes within n + 1 further rounds (for any fuel that large), while
against a model that never stops requesting tools it never terminates. -/
theorem C1_amended_no_round_cap :
    (∀ (reg : Registry) (uid : String) (model : ModelOracle) (n i : Nat) (r : Response)
       (audits : List AuditEntry) (store : List Todo) (fuel : Nat),
       n + 1 ≤ fuel →
       (∀ k parts, k < n → isOkTool (model (i + k) parts) = true) →
       (∀ parts, isOkNoTool (model (i + n) parts) = true) →
       (runLoop reg uid model fuel i r audits store).isSome = true)
    ∧ loopsForeverOnAlwaysTool := by
  constructor
  · intro reg uid model n
    induction n with
    | zero =>
      intro i r audits store fuel hfuel hA hB
      obtain ⟨fuel', rfl⟩ : ∃ f, fuel = f + 1 := ⟨fuel - 1, by omega⟩
      by_cases h : hasToolCall r
      · rw [runLoop_step reg uid model fuel' i r audits store h]
        cases hm : model i (processParts reg uid r store).2.1 with
        | error e => simp
        | ok r' =>
          have hb := hB (processParts reg uid r store).2.1
          simp only [Nat.add_zero] at hb
          rw [hm] at hb
          have hr' : hasToolCall r' = false := by
            simpa [isOkNoTool] using hb
          show (runLoop reg uid model fuel' (i + 1) r'
            (audits ++ (processParts reg uid r store).1)
            (processParts reg uid r store).2.2).isSome = true
          rw [runLoop_final reg uid model fuel' (i + 1) r' _ _ hr']
          simp
      · rw [runLoop_final reg uid model (fuel' + 1) i r audits store (by simpa using h)]
        simp
    | succ n ih =>
      intro i r audits store fuel hfuel hA hB
      obtain ⟨fuel', rfl⟩ : ∃ f, fuel = f + 1 := ⟨fuel - 1, by omega⟩
      by_cases h : hasToolCall r
      · rw [runLoop_step reg uid model fuel' i r audits store h]
        cases hm : model i (processParts reg uid r store).2.1 with
        | error e => simp
        | ok r' =>
          show (runLoop reg uid model fuel' (i + 1) r'
            (audits ++ (processParts reg uid r store).1)
            (processParts reg uid r store).2.2).isSome = true
          apply ih (i + 1) r' _ _ fuel' (by omega)
          · intro k parts hk
            have hidx : i + (k + 1) = i + 1 + k := by omega
            have := hA (k + 1) parts (by omega)
            rwa [hidx] at this
          · intro parts
            have hidx : i + (n + 1) = i + 1 + n := by omega
            have := hB parts
            rwa [hidx] at this
      · rw [runLoop_final reg uid model (fuel' + 1) i r audits store (by simpa using h)]
        simp
  · intro fuel store
    exact alwaysTool_runLoop_none fuel 0 [] store

/-- C1 amended witness: against a model whose very next answer carries no
tool request, the loop on the tool-requesting first response terminates
with fuel 1. -/
theorem C1_amended_no_round_cap_witness :
    (runLoop TOOL_FUNCTIONS "u1" (fun _ _ => .ok []) 1 0 alwaysToolResp [] []).isSome = true :=
  C1_amended_no_round_cap.1 TOOL_FUNCTIONS "u1" (fun _ _ => .ok []) 0 0 alwaysToolResp [] [] 1
    (by omega) (fun k parts hk => absurd hk (by omega)) (fun parts => rfl)

end TodoApp

namespace TodoApp

/-- Left brace character (0x7b), kept out of literals. -/
def lbrace : Char := Char.ofNat 123

/-- Right brace character (0x7d), kept out of literals. -/
def rbrace : Char := Char.ofNat 125

/-- Decimal digit character for a value below ten. -/
def digitChar (n : Nat) : Char := Char.ofNat (48 + n)

/-- Decimal digit characters of a natural number, most significant first,
as produced by Python's repr of a non-negative int. -/
def natChars (n : Nat) : List Char :=
  if n < 10 then [digitChar n]
  else natChars (n / 10) ++ [digitChar (n % 10)]
decreasing_by exact Nat.div_lt_self (by omega) (by omega)

/-- Decimal characters of an integer, as produced by json.dumps. -/
def intChars (i : Int) : List Char :=
  if i < 0 then '-' :: natChars i.natAbs else natChars i.natAbs

/-- Escaping of one character inside a JSON string literal, as performed by
json.dumps: quote and backslash are escaped, any other character is kept
verbatim (the embedding covers strings without control characters, where
this is exactly the ensure_ascii=False behavior of json.dumps). -/
def escChar (c : Char) : List Char :=
  if c = '"' ∨ c = '\\' then ['\\', c] else [c]

/-- Escaped body of a JSON string literal. -/
def escStr : List Char → List Char
  | [] => []
  | c :: cs => escChar c ++ escStr cs

/-- A JSON string literal with its surrounding quotes. -/
def strChars (s : String) : List Char := '"' :: escStr s.data ++ ['"']

mutual

/-- Characters of the json.dumps rendering of a value, with Python's
default separators ", " and ": ". -/
def dumpChars : JsonVal → List Char
  | .vStr s => strChars s
  | .vInt i => intChars i
  | .vBool true => ['t', 'r', 'u', 'e']
  | .vBool false => ['f', 'a', 'l', 's', 'e']
  | .vNull => ['n', 'u', 'l', 'l']
  | .vArr xs => '[' :: dumpArr xs ++ [']']
  | .vObj fs => lbrace :: dumpObj fs ++ [rbrace]

/-- Comma-space separated renderings of array elements. -/
def dumpArr : List JsonVal → List Char
  | [] => []
  | [x] => dumpChars x
  | x :: y :: xs => dumpChars x ++ ',' :: ' ' :: dumpArr (y :: xs)

/-- Comma-space separated key-value renderings of object fields. -/
def dumpObj : List (String × JsonVal) → List Char
  | [] => []
  | [(k, v)] => strChars k ++ ':' :: ' ' :: dumpChars v
  | (k, v) :: f :: fs => strChars k ++ ':' :: ' ' :: dumpChars v ++ ',' :: ' ' :: dumpObj (f :: fs)

end

/-- Embedding of json.dumps on the JSON-compatible values of this
application (chat.py line 96 serializes the audit list with it). -/
def dumps (v : JsonVal) : String := String.mk (dumpChars v)

mutual

/-- Structural size of a value; used as fuel bound for the parser. -/
def jsize : JsonVal → Nat
  | .vStr _ => 1
  | .vInt _ => 1
  | .vBool _ => 1
  | .vNull => 1
  | .vArr xs => jsizeArr xs + 1
  | .vObj fs => jsizeObj fs + 1

/-- Structural size of an element list. -/
def jsizeArr : List JsonVal → Nat
  | [] => 0
  | x :: xs => jsize x + jsizeArr xs + 1

/-- Structural size of a field list. -/
def jsizeObj : List (String × JsonVal) → Nat
  | [] => 0
  | (_, v) :: fs => jsize v + jsizeObj fs + 1

end

/-- JSON whitespace. -/
def isWsChar (c : Char) : Bool := c = ' ' || c = '\n' || c = '\t' || c = '\r'

/-- Leading-whitespace skipping of the parser. -/
def skipWs : List Char → List Char
  | [] => []
  | c :: cs => if isWsChar c then skipWs cs else c :: cs

/-- Decimal digit test. -/
def isDigitChar (c : Char) : Bool := 48 ≤ c.toNat && c.toNat ≤ 57

/-- Value of a decimal digit character. -/
def digitVal (c : Char) : Nat := c.toNat - 48

/-- Longest leading run of digit characters, and the remainder. -/
def takeDigits : List Char → List Char × List Char
  | [] => ([], [])
  | c :: cs =>
    if isDigitChar c then
      let r := takeDigits cs
      (c :: r.1, r.2)
    else ([], c :: cs)

/-- Accumulating decimal evaluation of a digit-character list. -/
def digitsToNat (acc : Nat) : List Char → Nat
  | [] => acc
  | c :: cs => digitsToNat (acc * 10 + digitVal c) cs

/-- Parse a non-empty run of digits as a natural number. -/
def parseNat (s : List Char) : Option (Nat × List Char) :=
  match takeDigits s with
  | ([], _) => none
  | (ds, rest) => some (digitsToNat 0 ds, rest)

/-- Parse an optionally negated decimal integer. -/
def parseIntTok (s : List Char) : Option (Int × List Char) :=
  match s with
  | [] => none
  | c :: cs =>
    if c = '-' then
      match parseNat cs with
      | none => none
      | some (n, rest') => some (-(n : Int), rest')
    else
      match parseNat (c :: cs) with
      | none => none
      | some (n, rest') => some ((n : Int), rest')

/-- Unescaping of the character following a backslash in a JSON string. -/
def unescChar (c : Char) : Option Char :=
  if c = '"' ∨ c = '\\' ∨ c = '/' then some c
  else if c = 'n' then some '\n'
  else if c = 't' then some '\t'
  else if c = 'r' then some '\r'
  else if c = 'b' then some (Char.ofNat 8)
  else if c = 'f' then some (Char.ofNat 12)
  else none

/-- Parse the body of a JSON string literal after its opening quote, up to
and including the closing quote. -/
def parseStrBody : List Char → Option (List Char × List Char)
  | [] => none
  | c :: cs =>
    if c = '"' then some ([], cs)
    else if c = '\\' then
      match cs with
      | [] => none
      | e :: cs' =>
        match unescChar e with
        | none => none
        | some c' =>
          match parseStrBody cs' with
          | none => none
          | some (body, rest) => some (c' :: body, rest)
    else
      match parseStrBody cs with
      | none => none
      | some (body, rest) => some (c :: body, rest)

mutual

/-- Fuel-bounded JSON value parser: the inverse of dumpChars. -/
def parseVal : Nat → List Char → Option (JsonVal × List Char)
  | 0, _ => none
  | fuel + 1, s =>
    match skipWs s with
    | [] => none
    | c :: cs =>
      if c = '"' then
        match parseStrBody cs with
        | none => none
        | some (body, rest) => some (.vStr (String.mk body), rest)
      else if c = '[' then
        match skipWs cs with
        | [] => none
        | d :: ds =>
          if d = ']' then some (.vArr [], ds)
          else
            match parseElems fuel (d :: ds) with
            | none => none
            | some (xs, rest) => some (.vArr xs, rest)
      else if c = lbrace then
        match skipWs cs with
        | [] => none
        | r :: rest =>
          if r = rbrace then some (.vObj [], rest)
          else
            match parseFields fuel (r :: rest) with
            | none => none
            | some (fs, rest') => some (.vObj fs, rest')
      else if c = 't' then
        match cs with
        | 'r' :: 'u' :: 'e' :: rest => some (.vBool true, rest)
        | _ => none
      else if c = 'f' then
        match cs with
        | 'a' :: 'l' :: 's' :: 'e' :: rest => some (.vBool false, rest)
        | _ => none
      else if c = 'n' then
        match cs with
        | 'u' :: 'l' :: 'l' :: rest => some (.vNull, rest)
        | _ => none
      else
        match parseIntTok (c :: cs) with
        | none => none
        | some (i, rest) => some (.vInt i, rest)

/-- Parse the non-empty element list of an array, consuming the closing
bracket. -/
def parseElems : Nat → List Char → Option (List JsonVal × List Char)
  | 0, _ => none
  | fuel + 1, s =>
    match parseVal fuel s with
    | none => none
    | some (v, rest) =>
      match skipWs rest with
      | [] => none
      | d :: rest' =>
        if d = ',' then
          match parseElems fuel rest' with
          | none => none
          | some (vs, rest'') => some (v :: vs, rest'')
        else if d = ']' then some ([v], rest')
        else none

/-- Parse the non-empty field list of an object, consuming the closing
brace. -/
def parseFields : Nat → List Char → Option (List (String × JsonVal) × List Char)
  | 0, _ => none
  | fuel + 1, s =>
    match skipWs s with
    | [] => none
    | c :: cs =>
      if c = '"' then
        match parseStrBody cs with
        | none => none
        | some (key, rest) =>
          match skipWs rest with
          | [] => none
          | d :: rest' =>
            if d = ':' then
              match parseVal fuel rest' with
              | none => none
              | some (v, rest'') =>
                match skipWs rest'' with
                | [] => none
                | e :: rest3 =>
                  if e = ',' then
                    match parseFields fuel rest3 with
                    | none => none
                    | some (fs, rest4) => some ((String.mk key, v) :: fs, rest4)
                  else if e = rbrace then some ([(String.mk key, v)], rest3)
                  else none
            else none
      else none

end

/-- Modelled from the spec: the repository serializes the tool-call audit
trail with json.dumps (chat.py line 96) but itself contains no
deserializer; spec section 6 requires that the persisted value
"round-trip (serialize/deserialize) without loss for transcript replay".
`loads` models the missing deserialization as standard JSON parsing of the
whole string. -/
def loads (s : String) : Option JsonVal :=
  match parseVal (s.length + 1) s.data with
  | none => none
  | some (v, rest) => if skipWs rest = [] then some v else none

end TodoApp

namespace TodoApp

/-- No leading decimal digit: the boundary condition after a serialized
number. -/
def noLeadingDigit : List Char → Bool
  | [] => true
  | c :: _ => !isDigitChar c

lemma digitVal_digitChar (d : Nat) (h : d < 10) : digitVal (digitChar d) = d := by
  interval_cases d <;> decide

lemma isDigitChar_digitChar (d : Nat) (h : d < 10) : isDigitChar (digitChar d) = true := by
  interval_cases d <;> decide

lemma isDigitChar_ne (c x : Char) (h : isDigitChar c = true) (hx : isDigitChar x = false) :
    c ≠ x := by
  intro he
  subst he
  rw [h] at hx
  cases hx

lemma natChars_all_digits : ∀ n, ∀ c ∈ natChars n, isDigitChar c = true := by
  intro n
  induction n using Nat.strong_induction_on with
  | _ n ih =>
    intro c hc
    rw [natChars] at hc
    by_cases h : n < 10
    · rw [if_pos h] at hc
      simp at hc
      exact hc ▸ isDigitChar_digitChar n h
    · rw [if_neg h] at hc
      simp [List.mem_append] at hc
      rcases hc with hc | hc
      · exact ih (n / 10) (Nat.div_lt_self (by omega) (by omega)) c hc
      · exact hc ▸ isDigitChar_digitChar _ (Nat.mod_lt _ (by omega))

lemma natChars_ne_nil (n : Nat) : natChars n ≠ [] := by
  rw [natChars]
  by_cases h : n < 10 <;> simp [h]

lemma natChars_cons (n : Nat) : ∃ c cs, natChars n = c :: cs := by
  cases hn : natChars n with
  | nil => exact absurd hn (natChars_ne_nil n)
  | cons c cs => exact ⟨c, cs, rfl⟩

lemma takeDigits_digits : ∀ (ds rest : List Char), (∀ c ∈ ds, isDigitChar c = true) →
    noLeadingDigit rest = true → takeDigits (ds ++ rest) = (ds, rest) := by
  intro ds
  induction ds with
  | nil =>
    intro rest _ hr
    cases rest with
    | nil => rfl
    | cons c cs =>
      simp [noLeadingDigit] at hr
      simp [takeDigits, hr]
  | cons c cs ih =>
    intro rest hd hr
    have hc := hd c (by simp)
    simp [takeDigits, hc, ih rest (fun x hx => hd x (by simp [hx])) hr]

lemma digitsToNat_append (ds es : List Char) : ∀ acc,
    digitsToNat acc (ds ++ es) = digitsToNat (digitsToNat acc ds) es := by
  induction ds with
  | nil => intro acc; rfl
  | cons c cs ih =>
    intro acc
    rw [List.cons_append]
    rw [show digitsToNat acc (c :: (cs ++ es)) = digitsToNat (acc * 10 + digitVal c) (cs ++ es) from rfl]
    rw [show digitsToNat acc (c :: cs) = digitsToNat (acc * 10 + digitVal c) cs from rfl]
    exact ih _

lemma digitsToNat_natChars (n : Nat) : ∀ acc,
    digitsToNat acc (natChars n) = acc * 10 ^ (natChars n).length + n := by
  induction n using Nat.strong_induction_on with
  | _ n ih =>
    intro acc
    by_cases h : n < 10
    · have hn : natChars n = [digitChar n] := by
        conv_lhs => rw [natChars]
        rw [if_pos h]
      rw [hn]
      rw [show digitsToNat acc [digitChar n]
        = acc * 10 + digitVal (digitChar n) from rfl]
      rw [digitVal_digitChar n h]
      simp
    · have hn : natChars n = natChars (n / 10) ++ [digitChar (n % 10)] := by
        conv_lhs => rw [natChars]
        rw [if_neg h]
      rw [hn, digitsToNat_append]
      rw [ih (n / 10) (Nat.div_lt_self (by omega) (by omega)) acc]
      rw [show digitsToNat (acc * 10 ^ (natChars (n / 10)).length + n / 10) [digitChar (n % 10)]
        = (acc * 10 ^ (natChars (n / 10)).length + n / 10) * 10 + digitVal (digitChar (n % 10)) from rfl]
      rw [digitVal_digitChar (n % 10) (Nat.mod_lt _ (by omega))]
      simp only [List.length_append, List.length_cons, List.length_nil]
      have hmod : n / 10 * 10 + n % 10 = n := by omega
      have hexp : (acc * 10 ^ (natChars (n / 10)).length + n / 10) * 10 + n % 10
          = acc * (10 ^ (natChars (n / 10)).length * 10) + (n / 10 * 10 + n % 10) := by ring
      rw [hexp, hmod, ← pow_succ]

lemma parseNat_natChars (n : Nat) (rest : List Char) (h : noLeadingDigit rest = true) :
    parseNat (natChars n ++ rest) = some (n, rest) := by
  unfold parseNat
  rw [takeDigits_digits (natChars n) rest (natChars_all_digits n) h]
  obtain ⟨c, cs, hc⟩ := natChars_cons n
  rw [hc]
  simp only []
  have hd := digitsToNat_natChars n 0
  rw [hc] at hd
  simp at hd
  simp [hd]

lemma parseIntTok_intChars (i : Int) (rest : List Char) (h : noLeadingDigit rest = true) :
    parseIntTok (intChars i ++ rest) = some (i, rest) := by
  unfold intChars
  by_cases hi : i < 0
  · rw [if_pos hi]
    simp only [List.cons_append, parseIntTok]
    rw [if_pos trivial]
    rw [parseNat_natChars i.natAbs rest h]
    simp only []
    have : -((i.natAbs : Nat) : Int) = i := by omega
    rw [this]
  · rw [if_neg hi]
    obtain ⟨c, cs, hc⟩ := natChars_cons i.natAbs
    have hcd : isDigitChar c = true := natChars_all_digits _ c (by rw [hc]; simp)
    have hne : c ≠ '-' := isDigitChar_ne c '-' hcd (by decide)
    rw [hc]
    simp only [List.cons_append, parseIntTok]
    rw [if_neg hne]
    rw [show c :: (cs ++ rest) = (c :: cs) ++ rest from rfl, ← hc]
    rw [parseNat_natChars i.natAbs rest h]
    simp only []
    have : ((i.natAbs : Nat) : Int) = i := by omega
    rw [this]

end TodoApp

namespace TodoApp

lemma parseStrBody_escStr : ∀ (cs rest : List Char),
    parseStrBody (escStr cs ++ '"' :: rest) = some (cs, rest) := by
  intro cs
  induction cs with
  | nil =>
    intro rest
    rw [show escStr [] ++ '"' :: rest = '"' :: rest from rfl]
    rw [parseStrBody.eq_def]
    simp
  | cons c cs ih =>
    intro rest
    by_cases hc : c = '"' ∨ c = '\\'
    · have hesc : escChar c = ['\\', c] := by rw [escChar, if_pos hc]
      have hu : unescChar c = some c := by rw [unescChar, if_pos (by tauto)]
      rcases hc with hc | hc <;>
        (subst hc
         simp only [escStr, hesc, List.cons_append, List.append_assoc]
         rw [parseStrBody.eq_def]
         simp [hu, ih rest])
    · push_neg at hc
      have hesc : escChar c = [c] := by
        rw [escChar, if_neg (by tauto)]
      simp only [escStr, hesc, List.cons_append, List.append_assoc]
      rw [parseStrBody.eq_def]
      simp [hc.1, hc.2, ih rest]

lemma skipWs_not_ws (c : Char) (cs : List Char) (h : isWsChar c = false) :
    skipWs (c :: cs) = c :: cs := by
  simp [skipWs, h]

/-- First characters a serialized JSON value can start with. -/
def isValueHead (c : Char) : Bool :=
  c = '"' || c = '-' || isDigitChar c || c = 't' || c = 'f' || c = 'n' || c = '[' || c = lbrace

lemma isDigitChar_not_ws (c : Char) (h : isDigitChar c = true) : isWsChar c = false := by
  cases hw : isWsChar c with
  | false => rfl
  | true =>
    exfalso
    have hch : c = ' ' ∨ c = '\n' ∨ c = '\t' ∨ c = '\r' := by
      have hw' := hw
      simp [isWsChar] at hw'
      tauto
    rcases hch with h1 | h1 | h1 | h1 <;> (subst h1; exact absurd h (by decide))

lemma valueHead_not_ws (c : Char) (h : isValueHead c = true) : isWsChar c = false := by
  have h' : c = '"' ∨ c = '-' ∨ isDigitChar c = true ∨ c = 't' ∨ c = 'f' ∨ c = 'n'
      ∨ c = '[' ∨ c = lbrace := by
    have h2 := h
    simp [isValueHead] at h2
    tauto
  rcases h' with h1 | h1 | h1 | h1 | h1 | h1 | h1 | h1
  · subst h1; decide
  · subst h1; decide
  · exact isDigitChar_not_ws c h1
  · subst h1; decide
  · subst h1; decide
  · subst h1; decide
  · subst h1; decide
  · subst h1; decide

lemma valueHead_ne (c x : Char) (h : isValueHead c = true) (hx : isValueHead x = false) :
    c ≠ x := by
  intro he
  subst he
  rw [h] at hx
  cases hx

lemma dump_head : ∀ v : JsonVal, ∃ c t, dumpChars v = c :: t ∧ isValueHead c = true := by
  intro v
  cases v with
  | vStr s =>
    refine ⟨'"', escStr s.data ++ ['"'], ?_, by decide⟩
    rw [dumpChars]
    rfl
  | vInt i =>
    by_cases hi : i < 0
    · refine ⟨'-', natChars i.natAbs, ?_, by decide⟩
      rw [dumpChars]
      rw [intChars, if_pos hi]
    · obtain ⟨c, cs, hc⟩ := natChars_cons i.natAbs
      have hcd : isDigitChar c = true := natChars_all_digits _ c (by rw [hc]; simp)
      refine ⟨c, cs, ?_, by simp [isValueHead, hcd]⟩
      rw [dumpChars]
      rw [intChars, if_neg hi, hc]
  | vBool b => cases b with
    | true => exact ⟨'t', ['r', 'u', 'e'], by rw [dumpChars], by decide⟩
    | false => exact ⟨'f', ['a', 'l', 's', 'e'], by rw [dumpChars], by decide⟩
  | vNull => exact ⟨'n', ['u', 'l', 'l'], by rw [dumpChars], by decide⟩
  | vArr xs =>
    refine ⟨'[', dumpArr xs ++ [']'], ?_, by decide⟩
    rw [dumpChars]
    rfl
  | vObj fs =>
    refine ⟨lbrace, dumpObj fs ++ [rbrace], ?_, by simp [isValueHead]⟩
    rw [dumpChars]
    rfl

lemma jsize_pos : ∀ v : JsonVal, 1 ≤ jsize v := by
  intro v
  cases v <;> simp [jsize]

end TodoApp

namespace TodoApp

lemma string_mk_data : ∀ s : String, String.mk s.data = s := by
  intro s
  cases s
  rfl

lemma parseVal_succ (f : Nat) (s : List Char) :
    parseVal (f + 1) s =
      (match skipWs s with
      | [] => none
      | c :: cs =>
        if c = '"' then
          match parseStrBody cs with
          | none => none
          | some (body, rest) => some (.vStr (String.mk body), rest)
        else if c = '[' then
          match skipWs cs with
          | [] => none
          | d :: ds =>
            if d = ']' then some (.vArr [], ds)
            else
              match parseElems f (d :: ds) with
              | none => none
              | some (xs, rest) => some (.vArr xs, rest)
        else if c = lbrace then
          match skipWs cs with
          | [] => none
          | r :: rest =>
            if r = rbrace then some (.vObj [], rest)
            else
              match parseFields f (r :: rest) with
              | none => none
              | some (fs, rest') => some (.vObj fs, rest')
        else if c = 't' then
          match cs with
          | 'r' :: 'u' :: 'e' :: rest => some (.vBool true, rest)
          | _ => none
        else if c = 'f' then
          match cs with
          | 'a' :: 'l' :: 's' :: 'e' :: rest => some (.vBool false, rest)
          | _ => none
        else if c = 'n' then
          match cs with
          | 'u' :: 'l' :: 'l' :: rest => some (.vNull, rest)
          | _ => none
        else
          match parseIntTok (c :: cs) with
          | none => none
          | some (i, rest) => some (.vInt i, rest)) := by
  rw [parseVal.eq_def]

lemma parseElems_succ (f : Nat) (s : List Char) :
    parseElems (f + 1) s =
      (match parseVal f s with
      | none => none
      | some (v, rest) =>
        match skipWs rest with
        | [] => none
        | d :: rest' =>
          if d = ',' then
            match parseElems f rest' with
            | none => none
            | some (vs, rest'') => some (v :: vs, rest'')
          else if d = ']' then some ([v], rest')
          else none) := by
  rw [parseElems.eq_def]

lemma parseFields_succ (f : Nat) (s : List Char) :
    parseFields (f + 1) s =
      (match skipWs s with
      | [] => none
      | c :: cs =>
        if c = '"' then
          match parseStrBody cs with
          | none => none
          | some (key, rest) =>
            match skipWs rest with
            | [] => none
            | d :: rest' =>
              if d = ':' then
                match parseVal f rest' with
                | none => none
                | some (v, rest'') =>
                  match skipWs rest'' with
                  | [] => none
                  | e :: rest3 =>
                    if e = ',' then
                      match parseFields f rest3 with
                      | none => none
                      | some (fs, rest4) => some ((String.mk key, v) :: fs, rest4)
                    else if e = rbrace then some ([(String.mk key, v)], rest3)
                    else none
              else none
        else none) := by
  rw [parseFields.eq_def]

lemma skipWs_space (s : List Char) : skipWs (' ' :: s) = skipWs s := by
  rw [skipWs]
  rfl

lemma parseVal_ws (fuel : Nat) (s : List Char) :
    parseVal fuel (' ' :: s) = parseVal fuel s := by
  cases fuel with
  | zero => rfl
  | succ f => rw [parseVal_succ, parseVal_succ, skipWs_space]

lemma parseElems_ws (fuel : Nat) (s : List Char) :
    parseElems fuel (' ' :: s) = parseElems fuel s := by
  cases fuel with
  | zero => rfl
  | succ f => rw [parseElems_succ, parseElems_succ, parseVal_ws]

lemma parseFields_ws (fuel : Nat) (s : List Char) :
    parseFields fuel (' ' :: s) = parseFields fuel s := by
  cases fuel with
  | zero => rfl
  | succ f => rw [parseFields_succ, parseFields_succ, skipWs_space]

lemma dumpArr_head (x : JsonVal) (xs : List JsonVal) :
    ∃ c t, dumpArr (x :: xs) = c :: t ∧ isValueHead c = true := by
  obtain ⟨c, t, hc, hv⟩ := dump_head x
  cases xs with
  | nil => exact ⟨c, t, by rw [dumpArr, hc], hv⟩
  | cons y ys =>
    refine ⟨c, t ++ ',' :: ' ' :: dumpArr (y :: ys), ?_, hv⟩
    rw [dumpArr, hc]
    simp

lemma dumpObj_head (g : String × JsonVal) (gs : List (String × JsonVal)) :
    ∃ t, dumpObj (g :: gs) = '"' :: t := by
  obtain ⟨k, v⟩ := g
  cases gs with
  | nil =>
    refine ⟨escStr k.data ++ '"' :: ':' :: ' ' :: dumpChars v, ?_⟩
    rw [dumpObj, strChars]
    simp
  | cons g2 gs2 =>
    refine ⟨escStr k.data ++ '"' :: ':' :: ' ' :: dumpChars v ++ ',' :: ' ' :: dumpObj (g2 :: gs2), ?_⟩
    rw [dumpObj, strChars]
    simp

end TodoApp

namespace TodoApp

lemma parse_dump_all : ∀ fuel : Nat,
    (∀ (v : JsonVal) (rest : List Char), jsize v ≤ fuel → noLeadingDigit rest = true →
      parseVal fuel (dumpChars v ++ rest) = some (v, rest))
    ∧ (∀ (xs : List JsonVal) (rest : List Char), xs ≠ [] → jsizeArr xs ≤ fuel →
      parseElems fuel (dumpArr xs ++ ']' :: rest) = some (xs, rest))
    ∧ (∀ (fs : List (String × JsonVal)) (rest : List Char), fs ≠ [] → jsizeObj fs ≤ fuel →
      parseFields fuel (dumpObj fs ++ rbrace :: rest) = some (fs, rest)) := by
  intro fuel
  induction fuel using Nat.strong_induction_on with
  | _ fuel ih =>
    refine ⟨?_, ?_, ?_⟩
    · intro v rest hsz hrest
      cases fuel with
      | zero => exact absurd hsz (by have := jsize_pos v; omega)
      | succ f =>
        cases v with
        | vStr s =>
          have hd : dumpChars (JsonVal.vStr s) ++ rest = '"' :: (escStr s.data ++ '"' :: rest) := by
            rw [dumpChars, strChars]
            simp
          rw [hd, parseVal_succ, skipWs_not_ws _ _ (by decide)]
          simp [parseStrBody_escStr, string_mk_data]
        | vInt i =>
          have hp := parseIntTok_intChars i rest hrest
          by_cases hi : i < 0
          · have hic : intChars i = '-' :: natChars i.natAbs := by rw [intChars, if_pos hi]
            have hd : dumpChars (JsonVal.vInt i) ++ rest = '-' :: (natChars i.natAbs ++ rest) := by
              rw [dumpChars, hic]
              simp
            rw [hd, parseVal_succ, skipWs_not_ws _ _ (by decide)]
            rw [hic] at hp
            simp only [List.cons_append] at hp
            simp [hp, show ('-' : Char) ≠ lbrace from by decide]
          · obtain ⟨c, cs, hc⟩ := natChars_cons i.natAbs
            have hcd : isDigitChar c = true := natChars_all_digits _ c (by rw [hc]; simp)
            have hic : intChars i = c :: cs := by rw [intChars, if_neg hi, hc]
            have hd : dumpChars (JsonVal.vInt i) ++ rest = c :: (cs ++ rest) := by
              rw [dumpChars, hic]
              simp
            rw [hd, parseVal_succ, skipWs_not_ws _ _ (isDigitChar_not_ws c hcd)]
            rw [hic] at hp
            simp only [List.cons_append] at hp
            simp [hp, isDigitChar_ne c '"' hcd (by decide), isDigitChar_ne c '[' hcd (by decide),
              isDigitChar_ne c lbrace hcd (by decide), isDigitChar_ne c 't' hcd (by decide),
              isDigitChar_ne c 'f' hcd (by decide), isDigitChar_ne c 'n' hcd (by decide)]
        | vBool b =>
          cases b with
          | true =>
            have hd : dumpChars (JsonVal.vBool true) ++ rest = 't' :: 'r' :: 'u' :: 'e' :: rest := by
              rw [dumpChars]
              rfl
            rw [hd, parseVal_succ, skipWs_not_ws _ _ (by decide)]
            simp [show ('t' : Char) ≠ lbrace from by decide]
          | false =>
            have hd : dumpChars (JsonVal.vBool false) ++ rest
                = 'f' :: 'a' :: 'l' :: 's' :: 'e' :: rest := by
              rw [dumpChars]
              rfl
            rw [hd, parseVal_succ, skipWs_not_ws _ _ (by decide)]
            simp [show ('f' : Char) ≠ lbrace from by decide]
        | vNull =>
          have hd : dumpChars JsonVal.vNull ++ rest = 'n' :: 'u' :: 'l' :: 'l' :: rest := by
            rw [dumpChars]
            rfl
          rw [hd, parseVal_succ, skipWs_not_ws _ _ (by decide)]
          simp [show ('n' : Char) ≠ lbrace from by decide]
        | vArr xs =>
          cases xs with
          | nil =>
            have hd : dumpChars (JsonVal.vArr []) ++ rest = '[' :: ']' :: rest := by
              rw [dumpChars, dumpArr]
              rfl
            rw [hd, parseVal_succ, skipWs_not_ws _ _ (by decide)]
            have h1 : skipWs (']' :: rest) = ']' :: rest := skipWs_not_ws _ _ (by decide)
            simp [h1]
          | cons x xs' =>
            obtain ⟨c0, t0, hc0, hv0⟩ := dumpArr_head x xs'
            have hd : dumpChars (JsonVal.vArr (x :: xs')) ++ rest
                = '[' :: (dumpArr (x :: xs') ++ ']' :: rest) := by
              rw [dumpChars]
              simp
            have hD : dumpArr (x :: xs') ++ ']' :: rest = c0 :: (t0 ++ ']' :: rest) := by
              rw [hc0]
              simp
            have hsz' : jsizeArr (x :: xs') ≤ f := by
              have h3 : jsize (JsonVal.vArr (x :: xs')) = jsizeArr (x :: xs') + 1 := by rw [jsize]
              omega
            have hpe : parseElems f (c0 :: (t0 ++ ']' :: rest)) = some (x :: xs', rest) := by
              rw [← hD]
              exact (ih f (by omega)).2.1 (x :: xs') rest (by simp) hsz'
            have h1 : skipWs (c0 :: (t0 ++ ']' :: rest)) = c0 :: (t0 ++ ']' :: rest) :=
              skipWs_not_ws _ _ (valueHead_not_ws c0 hv0)
            have h2 : c0 ≠ ']' := valueHead_ne c0 ']' hv0 (by decide)
            rw [hd, parseVal_succ, skipWs_not_ws _ _ (by decide), hD]
            simp [h1, h2, hpe]
        | vObj fs =>
          cases fs with
          | nil =>
            have hd : dumpChars (JsonVal.vObj []) ++ rest = lbrace :: rbrace :: rest := by
              rw [dumpChars, dumpObj]
              rfl
            rw [hd, parseVal_succ, skipWs_not_ws _ _ (by decide)]
            have h1 : skipWs (rbrace :: rest) = rbrace :: rest := skipWs_not_ws _ _ (by decide)
            have h2 : lbrace ≠ '"' := by decide
            have h3 : lbrace ≠ '[' := by decide
            simp [h1, h2, h3]
          | cons g gs =>
            obtain ⟨t0, hc0⟩ := dumpObj_head g gs
            have hd : dumpChars (JsonVal.vObj (g :: gs)) ++ rest
                = lbrace :: (dumpObj (g :: gs) ++ rbrace :: rest) := by
              rw [dumpChars]
              simp
            have hD : dumpObj (g :: gs) ++ rbrace :: rest = '"' :: (t0 ++ rbrace :: rest) := by
              rw [hc0]
              simp
            have hsz' : jsizeObj (g :: gs) ≤ f := by
              have h3 : jsize (JsonVal.vObj (g :: gs)) = jsizeObj (g :: gs) + 1 := by rw [jsize]
              omega
            have hpf : parseFields f ('"' :: (t0 ++ rbrace :: rest)) = some (g :: gs, rest) := by
              rw [← hD]
              exact (ih f (by omega)).2.2 (g :: gs) rest (by simp) hsz'
            have h1 : skipWs ('"' :: (t0 ++ rbrace :: rest)) = '"' :: (t0 ++ rbrace :: rest) :=
              skipWs_not_ws _ _ (by decide)
            have h2 : ('"' : Char) ≠ rbrace := by decide
            have h4 : lbrace ≠ '"' := by decide
            have h5 : lbrace ≠ '[' := by decide
            rw [hd, parseVal_succ, skipWs_not_ws _ _ (by decide), hD]
            simp [h1, h2, h4, h5, hpf]
    · intro xs rest hne hsz
      cases xs with
      | nil => exact absurd rfl hne
      | cons x xs' =>
        have hxp := jsize_pos x
        have hszeq : jsizeArr (x :: xs') = jsize x + jsizeArr xs' + 1 := by rw [jsizeArr]
        cases fuel with
        | zero => omega
        | succ f =>
          cases xs' with
          | nil =>
            have hda : dumpArr [x] = dumpChars x := by rw [dumpArr]
            rw [parseElems_succ, hda]
            have hpv : parseVal f (dumpChars x ++ ']' :: rest) = some (x, ']' :: rest) := by
              refine (ih f (by omega)).1 x (']' :: rest) ?_ ?_
              · have h0 : jsizeArr ([] : List JsonVal) = 0 := by rw [jsizeArr]
                omega
              · rw [noLeadingDigit]
                decide
            have h1 : skipWs (']' :: rest) = ']' :: rest := skipWs_not_ws _ _ (by decide)
            simp [hpv, h1]
          | cons y ys =>
            have hyp := jsize_pos y
            have hszeq2 : jsizeArr (y :: ys) = jsize y + jsizeArr ys + 1 := by rw [jsizeArr]
            have hda : dumpArr (x :: y :: ys) = dumpChars x ++ ',' :: ' ' :: dumpArr (y :: ys) := by
              rw [dumpArr]
            rw [parseElems_succ, hda]
            rw [show (dumpChars x ++ ',' :: ' ' :: dumpArr (y :: ys)) ++ ']' :: rest
                = dumpChars x ++ (',' :: ' ' :: (dumpArr (y :: ys) ++ ']' :: rest)) from by simp]
            have hpv : parseVal f (dumpChars x ++ (',' :: ' ' :: (dumpArr (y :: ys) ++ ']' :: rest)))
                = some (x, ',' :: ' ' :: (dumpArr (y :: ys) ++ ']' :: rest)) := by
              refine (ih f (by omega)).1 x _ (by omega) ?_
              rw [noLeadingDigit]
              decide
            have h1 : skipWs (',' :: ' ' :: (dumpArr (y :: ys) ++ ']' :: rest))
                = ',' :: ' ' :: (dumpArr (y :: ys) ++ ']' :: rest) :=
              skipWs_not_ws _ _ (by decide)
            have hrec : parseElems f (' ' :: (dumpArr (y :: ys) ++ ']' :: rest))
                = some (y :: ys, rest) := by
              rw [parseElems_ws]
              exact (ih f (by omega)).2.1 (y :: ys) rest (by simp) (by omega)
            simp [hpv, h1, hrec]
    · intro fs rest hne hsz
      cases fs with
      | nil => exact absurd rfl hne
      | cons g gs =>
        obtain ⟨k, v⟩ := g
        have hvp := jsize_pos v
        have hszeq : jsizeObj ((k, v) :: gs) = jsize v + jsizeObj gs + 1 := by rw [jsizeObj]
        cases fuel with
        | zero => omega
        | succ f =>
          cases gs with
          | nil =>
            have hdo : dumpObj [(k, v)] = strChars k ++ ':' :: ' ' :: dumpChars v := by
              rw [dumpObj]
            rw [parseFields_succ, hdo]
            rw [show (strChars k ++ ':' :: ' ' :: dumpChars v) ++ rbrace :: rest
                = '"' :: (escStr k.data ++ '"' :: (':' :: ' ' :: (dumpChars v ++ rbrace :: rest)))
              from by rw [strChars]; simp]
            rw [skipWs_not_ws _ _ (by decide)]
            have hpv : parseVal f (' ' :: (dumpChars v ++ rbrace :: rest))
                = some (v, rbrace :: rest) := by
              rw [parseVal_ws]
              refine (ih f (by omega)).1 v _ ?_ ?_
              · have h0 : jsizeObj ([] : List (String × JsonVal)) = 0 := by rw [jsizeObj]
                omega
              · rw [noLeadingDigit]
                decide
            have h1 : skipWs (':' :: ' ' :: (dumpChars v ++ rbrace :: rest))
                = ':' :: ' ' :: (dumpChars v ++ rbrace :: rest) := skipWs_not_ws _ _ (by decide)
            have h2 : skipWs (rbrace :: rest) = rbrace :: rest := skipWs_not_ws _ _ (by decide)
            have h3 : rbrace ≠ ',' := by decide
            simp [parseStrBody_escStr, h1, hpv, h2, h3, string_mk_data]
          | cons g2 gs2 =>
            have hdo : dumpObj ((k, v) :: g2 :: gs2)
                = strChars k ++ ':' :: ' ' :: dumpChars v ++ ',' :: ' ' :: dumpObj (g2 :: gs2) := by
              rw [dumpObj]
            rw [parseFields_succ, hdo]
            rw [show (strChars k ++ ':' :: ' ' :: dumpChars v ++ ',' :: ' ' :: dumpObj (g2 :: gs2))
                  ++ rbrace :: rest
                = '"' :: (escStr k.data ++ '"' :: (':' :: ' ' ::
                    (dumpChars v ++ (',' :: ' ' :: (dumpObj (g2 :: gs2) ++ rbrace :: rest)))))
              from by rw [strChars]; simp]
            rw [skipWs_not_ws _ _ (by decide)]
            have hpv : parseVal f (' ' :: (dumpChars v ++ (',' :: ' ' ::
                (dumpObj (g2 :: gs2) ++ rbrace :: rest))))
                = some (v, ',' :: ' ' :: (dumpObj (g2 :: gs2) ++ rbrace :: rest)) := by
              rw [parseVal_ws]
              refine (ih f (by omega)).1 v _ (by omega) ?_
              rw [noLeadingDigit]
              decide
            have h1 : skipWs (':' :: ' ' :: (dumpChars v ++ (',' :: ' ' ::
                (dumpObj (g2 :: gs2) ++ rbrace :: rest))))
                = ':' :: ' ' :: (dumpChars v ++ (',' :: ' ' ::
                (dumpObj (g2 :: gs2) ++ rbrace :: rest))) := skipWs_not_ws _ _ (by decide)
            have h2 : skipWs (',' :: ' ' :: (dumpObj (g2 :: gs2) ++ rbrace :: rest))
                = ',' :: ' ' :: (dumpObj (g2 :: gs2) ++ rbrace :: rest) :=
              skipWs_not_ws _ _ (by decide)
            have hrec : parseFields f (' ' :: (dumpObj (g2 :: gs2) ++ rbrace :: rest))
                = some (g2 :: gs2, rest) := by
              rw [parseFields_ws]
              exact (ih f (by omega)).2.2 (g2 :: gs2) rest (by simp) (by omega)
            simp [parseStrBody_escStr, h1, hpv, h2, hrec, string_mk_data]

end TodoApp

namespace TodoApp

lemma dump_length_all : ∀ N : Nat,
    (∀ v : JsonVal, jsize v ≤ N → jsize v ≤ (dumpChars v).length)
    ∧ (∀ xs : List JsonVal, jsizeArr xs ≤ N → jsizeArr xs ≤ (dumpArr xs).length + 1)
    ∧ (∀ fs : List (String × JsonVal), jsizeObj fs ≤ N → jsizeObj fs ≤ (dumpObj fs).length + 1) := by
  intro N
  induction N using Nat.strong_induction_on with
  | _ N ih =>
    refine ⟨?_, ?_, ?_⟩
    · intro v hsz
      cases v with
      | vStr s =>
        rw [jsize, dumpChars, strChars]
        simp only [List.length_append, List.length_cons, List.length_nil]
        omega
      | vInt i =>
        rw [jsize, dumpChars, intChars]
        by_cases hi : i < 0
        · rw [if_pos hi]
          simp only [List.length_cons]
          omega
        · rw [if_neg hi]
          obtain ⟨c, cs, hc⟩ := natChars_cons i.natAbs
          rw [hc]
          simp only [List.length_cons]
          omega
      | vBool b =>
        cases b <;> (rw [jsize, dumpChars]; decide)
      | vNull =>
        rw [jsize, dumpChars]
        decide
      | vArr xs =>
        rw [jsize] at hsz ⊢
        rw [dumpChars]
        have hN : 1 ≤ N := by omega
        have h2 := (ih (N - 1) (by omega)).2.1 xs (by omega)
        simp only [List.length_cons, List.length_append, List.length_cons, List.length_nil]
        omega
      | vObj fs =>
        rw [jsize] at hsz ⊢
        rw [dumpChars]
        have hN : 1 ≤ N := by omega
        have h2 := (ih (N - 1) (by omega)).2.2 fs (by omega)
        simp only [List.length_cons, List.length_append, List.length_cons, List.length_nil]
        omega
    · intro xs hsz
      cases xs with
      | nil =>
        rw [jsizeArr]
        omega
      | cons x xs' =>
        rw [jsizeArr] at hsz ⊢
        have hxp := jsize_pos x
        have hN : 1 ≤ N := by omega
        cases xs' with
        | nil =>
          rw [dumpArr]
          rw [show jsizeArr ([] : List JsonVal) = 0 from by rw [jsizeArr]]
          have h1 := (ih (N - 1) (by omega)).1 x (by omega)
          omega
        | cons y ys =>
          rw [dumpArr]
          have hyp : 1 ≤ jsizeArr (y :: ys) := by rw [jsizeArr]; omega
          have h1 := (ih (N - 1) (by omega)).1 x (by omega)
          have h2 := (ih (N - 1) (by omega)).2.1 (y :: ys) (by omega)
          simp only [List.length_append, List.length_cons]
          omega
    · intro fs hsz
      cases fs with
      | nil =>
        rw [jsizeObj]
        omega
      | cons g gs =>
        obtain ⟨k, v⟩ := g
        rw [jsizeObj] at hsz ⊢
        have hvp := jsize_pos v
        have hN : 1 ≤ N := by omega
        cases gs with
        | nil =>
          rw [dumpObj]
          rw [show jsizeObj ([] : List (String × JsonVal)) = 0 from by rw [jsizeObj]]
          have h1 := (ih (N - 1) (by omega)).1 v (by omega)
          simp only [List.length_append, List.length_cons]
          omega
        | cons g2 gs2 =>
          rw [dumpObj]
          have hgp : 1 ≤ jsizeObj (g2 :: gs2) := by
            obtain ⟨k2, v2⟩ := g2
            rw [jsizeObj]
            omega
          have h1 := (ih (N - 1) (by omega)).1 v (by omega)
          have h2 := (ih (N - 1) (by omega)).2.2 (g2 :: gs2) (by omega)
          simp only [List.length_append, List.length_cons]
          omega

lemma loads_dumps (v : JsonVal) : loads (dumps v) = some v := by
  have hfuel : jsize v ≤ (dumpChars v).length + 1 := by
    have h := (dump_length_all (jsize v)).1 v (le_refl _)
    omega
  have hp := (parse_dump_all ((dumpChars v).length + 1)).1 v [] hfuel rfl
  rw [List.append_nil] at hp
  unfold loads dumps
  rw [show (String.mk (dumpChars v)).data = dumpChars v from rfl,
      show (String.mk (dumpChars v)).length = (dumpChars v).length from rfl]
  rw [hp]
  simp [skipWs]

/-- JSON form of one audit entry, as the Python dict
`\x7b"tool": ..., "arguments": ..., "result": ...\x7d` that chat.py
serializes.  The model-supplied arguments are a dict, the result an
arbitrary JSON value. -/
def entryToJson (e : AuditEntry) : JsonVal :=
  .vObj [("tool", .vStr e.tool), ("arguments", .vObj e.arguments), ("result", e.result)]

/-- JSON form of the whole audit list. -/
def auditToJson (tcs : List AuditEntry) : JsonVal := .vArr (tcs.map entryToJson)

/-- Embedding of chat.py line 96:
`tool_calls_json = json.dumps(agent_result["tool_calls"])`, the value
persisted into Message.tool_calls. -/
def serializeToolCalls (tcs : List AuditEntry) : String := dumps (auditToJson tcs)

/-- Recovery of one audit entry from its JSON form. -/
def jsonToEntry : JsonVal → Option AuditEntry
  | .vObj [("tool", .vStr t), ("arguments", .vObj args), ("result", r)] => some ⟨t, args, r⟩
  | _ => none

/-- Recovery of a list of audit entries from their JSON forms. -/
def mapEntries : List JsonVal → Option (List AuditEntry)
  | [] => some []
  | x :: xs =>
    match jsonToEntry x with
    | none => none
    | some e =>
      match mapEntries xs with
      | none => none
      | some es => some (e :: es)

/-- Recovery of the audit list from its JSON form. -/
def jsonToAudit : JsonVal → Option (List AuditEntry)
  | .vArr xs => mapEntries xs
  | _ => none

/-- Modelled from the spec: the repository persists Message.tool_calls as a
json.dumps string (chat.py line 96) but contains no code that deserializes
it; spec section 6 requires the field to "round-trip
(serialize/deserialize) without loss for transcript replay into history".
This is the missing deserialization: standard JSON parsing followed by
reading back the \x7btool, arguments, result\x7d structures. -/
def deserializeToolCalls (s : String) : Option (List AuditEntry) :=
  match loads s with
  | none => none
  | some v => jsonToAudit v

lemma jsonToEntry_entryToJson (e : AuditEntry) : jsonToEntry (entryToJson e) = some e := by
  cases e
  rfl

lemma mapEntries_map (tcs : List AuditEntry) :
    mapEntries (tcs.map entryToJson) = some tcs := by
  induction tcs with
  | nil => rfl
  | cons e es ih =>
    simp [List.map_cons, mapEntries, jsonToEntry_entryToJson e, ih]

lemma jsonToAudit_auditToJson (tcs : List AuditEntry) :
    jsonToAudit (auditToJson tcs) = some tcs := by
  simp [auditToJson, jsonToAudit, mapEntries_map]

/-- C8: serializing the orchestrator's tool-call audit trail into the
persisted Message.tool_calls field (json.dumps, chat.py line 96) and
deserializing it back is lossless: parsing the serialized string recovers
exactly the JSON form of the audit list, and decoding it yields the same
list of \x7btool, arguments, result\x7d structures. -/
theorem C8_tool_calls_roundtrip (tcs : List AuditEntry) :
    loads (serializeToolCalls tcs) = some (auditToJson tcs)
    ∧ deserializeToolCalls (serializeToolCalls tcs) = some tcs := by
  have h := loads_dumps (auditToJson tcs)
  refine ⟨h, ?_⟩
  unfold deserializeToolCalls serializeToolCalls
  unfold serializeToolCalls at h
  rw [h]
  exact jsonToAudit_auditToJson tcs

end TodoApp
